import Mathlib

/-!
Verification of the Westminster footfall / bin-sensor analysis pipeline
(`westminster_footfall_analysis_simple.py` and `backend/server.py`).

Modelling conventions:
* Python floats holding coordinates, radii, weights and configuration are
  embedded as exact rationals (`ℚ`); derived scores, which involve
  `math.sqrt`, are embedded as real numbers (`ℝ`), with `Real.sqrt` for
  `math.sqrt`.  Comparisons on `ℝ` use the classical decidability
  instances, so the score-level functions are `noncomputable`.
* Python lists of mutable objects are embedded as immutable `List`s;
  in-place field mutation becomes functional record update, and mutation
  through aliases (e.g. the optimizer updating bins reached through a
  filtered sub-list) is modelled by updating the backing list at the
  corresponding index.
-/

namespace BinSensors

/-- Configuration of the analysis (`Config` dataclass in the source),
with the source's default values. -/
structure Config where
  MIN_LON : ℚ := -0.20
  MAX_LON : ℚ := -0.11
  MIN_LAT : ℚ := 51.485
  MAX_LAT : ℚ := 51.535
  GRID_RESOLUTION : ℚ := 0.001
  TUBE_INFLUENCE_RADIUS : ℚ := 0.005
  BUS_INFLUENCE_RADIUS : ℚ := 0.002
  PREMISES_INFLUENCE_RADIUS : ℚ := 0.0015
  TUBE_WEIGHT : ℚ := 0.45
  BUS_WEIGHT : ℚ := 0.30
  PREMISES_WEIGHT : ℚ := 0.25
  N_FOOTFALL_CATEGORIES : ℕ := 8
deriving Repr

/-- A latitude/longitude pair (`Point` dataclass). -/
structure Point where
  lat : ℚ
  lon : ℚ
deriving DecidableEq, Repr

/-- Squared degree distance between two points (the radicand of
`Point.distance_to`). -/
def Point.dist2 (p q : Point) : ℚ :=
  (p.lat - q.lat) ^ 2 + (p.lon - q.lon) ^ 2

/-- `Point.distance_to`: approximate distance in degrees,
`sqrt((lat1-lat2)^2 + (lon1-lon2)^2)`. -/
noncomputable def Point.distance_to (p q : Point) : ℝ :=
  Real.sqrt (p.dist2 q : ℚ)

/-- `TubeStation` dataclass. -/
structure TubeStation where
  name : String
  lat : ℚ
  lon : ℚ
  annual_usage : ℚ

/-- `BusStop` dataclass. -/
structure BusStop where
  stop_id : String
  lat : ℚ
  lon : ℚ
  frequency : ℚ

/-- `LicensedPremises` dataclass. -/
structure LicensedPremises where
  premises_id : String
  area : String
  ptype : String
  lat : ℚ
  lon : ℚ
  capacity : ℚ

/-- `GridCell` dataclass, with the source's field defaults. -/
structure GridCell where
  cell_id : String
  center_lat : ℚ
  center_lon : ℚ
  tube_score : ℝ := 0
  bus_score : ℝ := 0
  premises_score : ℝ := 0
  footfall_score : ℝ := 0
  footfall_category : ℕ := 0
  footfall_category_name : String := ""
  ward : String := ""
  road_name : String := ""
  locality : String := ""
  estimated_people_per_hour : ℝ := 0
  estimated_bin_fill_rate : ℝ := 0

instance : Inhabited GridCell := ⟨{ cell_id := "", center_lat := 0, center_lon := 0 }⟩

/-- `BinLocation` dataclass, with the source's field defaults. -/
structure BinLocation where
  bin_id : String
  lat : ℚ
  lon : ℚ
  bin_type : String := ""
  capacity_liters : ℤ := 0
  cell_id : String := ""
  footfall_category : ℕ := 0
  footfall_score : ℝ := 0
  selected_for_sensor : Bool := false
  selection_rank : ℕ := 0
  ward : String := ""
  road_name : String := ""
  estimated_people_per_hour : ℝ := 0
  estimated_bin_fill_rate : ℝ := 0

instance : Inhabited BinLocation := ⟨{ bin_id := "", lat := 0, lon := 0 }⟩

/-- Ray-casting point-in-polygon test (`point_in_polygon`).  The source
walks index `i` over the polygon with `j` trailing one step behind
(starting at the last vertex) and flips `inside` on each crossing. -/
def point_in_polygon (x y : ℚ) (polygon : List (ℚ × ℚ)) : Bool :=
  let n := polygon.length
  (List.range n).foldl
    (fun inside i =>
      let xi := (polygon.getD i (0, 0)).1
      let yi := (polygon.getD i (0, 0)).2
      let j := if i = 0 then n - 1 else i - 1
      let xj := (polygon.getD j (0, 0)).1
      let yj := (polygon.getD j (0, 0)).2
      if (decide (yi > y) != decide (yj > y))
          && decide (x < (xj - xi) * (y - yi) / (yj - yi) + xi)
      then !inside else inside)
    false

/-- The simplified Westminster boundary polygon from `is_in_westminster`. -/
def westminster_boundary : List (ℚ × ℚ) :=
  [(-0.1634, 51.5275), (-0.1343, 51.5246), (-0.1165, 51.5180),
   (-0.1150, 51.5000), (-0.1240, 51.4870), (-0.1450, 51.4850),
   (-0.1600, 51.4867), (-0.1800, 51.5000), (-0.2000, 51.5100),
   (-0.1900, 51.5200), (-0.1634, 51.5275)]

/-- `is_in_westminster`: hard latitude/longitude bounds check followed by
the polygon containment test. -/
def is_in_westminster (lat lon : ℚ) : Bool :=
  if lat < 51.485 ∨ lat > 51.535 then false
  else if lon < -0.20 ∨ lon > -0.11 then false
  else point_in_polygon lon lat westminster_boundary

/-- Number of iterations of the source's `while cursor <= hi` loop that
starts at `lo` and advances by `res`.  For `lo > hi` the loop body never
runs; for positive `res` the loop visits `lo + i*res` for
`i = 0, ..., ⌊(hi-lo)/res⌋`.  (For `lo ≤ hi` and `res ≤ 0` the source
would loop forever; that case is not modelled and no claim depends on
it.) -/
def numSteps (lo hi res : ℚ) : ℕ :=
  if lo ≤ hi ∧ 0 < res then (⌊(hi - lo) / res⌋).toNat + 1 else 0

/-- Zero-pad a numeral to five digits, as in the `f"CELL{cell_id:05d}"`
format of the source. -/
def pad5 (n : ℕ) : String :=
  let s := toString n
  ⟨List.replicate (5 - s.length) '0'⟩ ++ s

/-- `create_grid`: enumerate the lattice `MIN_LAT + i*res`,
`MIN_LON + j*res` (latitude outer loop, longitude inner loop), keep the
points passing `is_in_westminster`, and number the kept cells in scan
order.  The source performs no validation of the bounding box and
raises no error: it simply returns the (possibly empty) list of cells. -/
def create_grid (config : Config) : List GridCell :=
  let latVals := (List.range (numSteps config.MIN_LAT config.MAX_LAT
      config.GRID_RESOLUTION)).map
    (fun i => config.MIN_LAT + i * config.GRID_RESOLUTION)
  let lonVals := (List.range (numSteps config.MIN_LON config.MAX_LON
      config.GRID_RESOLUTION)).map
    (fun j => config.MIN_LON + j * config.GRID_RESOLUTION)
  let pts := latVals.flatMap (fun lat =>
    lonVals.filterMap (fun lon =>
      if is_in_westminster lat lon then some (lat, lon) else none))
  pts.enum.map (fun p =>
    { cell_id := "CELL" ++ pad5 p.1, center_lat := p.2.1, center_lon := p.2.2 })

/-- A configuration whose latitude bounds are inverted (empty box,
`min > max`). -/
def emptyBoxConfig : Config := { MIN_LAT := 52, MAX_LAT := 51 }

/-!  Footfall scoring (`calculate_footfall_scores`). -/

/-- Influence of a single tube station on a single cell: a hard cutoff at
the tube influence radius (strict `<`), quadratic decay inside it. -/
noncomputable def tubeInfluence (config : Config) (cell : GridCell)
    (tube : TubeStation) : ℝ :=
  let dist := Point.distance_to ⟨cell.center_lat, cell.center_lon⟩
    ⟨tube.lat, tube.lon⟩
  if dist < (config.TUBE_INFLUENCE_RADIUS : ℝ) then
    (tube.annual_usage : ℝ) * (1 - dist / (config.TUBE_INFLUENCE_RADIUS : ℝ)) ^ 2
  else 0

/-- Influence of a single bus stop on a single cell: hard cutoff at the
bus influence radius, linear decay inside it. -/
noncomputable def busInfluence (config : Config) (cell : GridCell)
    (bus : BusStop) : ℝ :=
  let dist := Point.distance_to ⟨cell.center_lat, cell.center_lon⟩
    ⟨bus.lat, bus.lon⟩
  if dist < (config.BUS_INFLUENCE_RADIUS : ℝ) then
    (bus.frequency : ℝ) * (1 - dist / (config.BUS_INFLUENCE_RADIUS : ℝ))
  else 0

/-- Influence of a single licensed premises on a single cell: hard cutoff
at the premises influence radius, linear decay inside it. -/
noncomputable def premisesInfluence (config : Config) (cell : GridCell)
    (p : LicensedPremises) : ℝ :=
  let dist := Point.distance_to ⟨cell.center_lat, cell.center_lon⟩
    ⟨p.lat, p.lon⟩
  if dist < (config.PREMISES_INFLUENCE_RADIUS : ℝ) then
    (p.capacity : ℝ) * (1 - dist / (config.PREMISES_INFLUENCE_RADIUS : ℝ))
  else 0

/-- First loop of `calculate_footfall_scores`: accumulate every tube
station's influence onto each cell's `tube_score`. -/
noncomputable def addTubeScores (cells : List GridCell)
    (tubes : List TubeStation) (config : Config) : List GridCell :=
  cells.map (fun c =>
    { c with tube_score :=
        tubes.foldl (fun s t => s + tubeInfluence config c t) c.tube_score })

/-- Second loop of `calculate_footfall_scores`. -/
noncomputable def addBusScores (cells : List GridCell)
    (buses : List BusStop) (config : Config) : List GridCell :=
  cells.map (fun c =>
    { c with bus_score :=
        buses.foldl (fun s b => s + busInfluence config c b) c.bus_score })

/-- Third loop of `calculate_footfall_scores`. -/
noncomputable def addPremisesScores (cells : List GridCell)
    (premises : List LicensedPremises) (config : Config) : List GridCell :=
  cells.map (fun c =>
    { c with premises_score :=
        premises.foldl (fun s p => s + premisesInfluence config c p) c.premises_score })

/-- Running maximum of a score over the cell list, starting from `0`,
exactly as the source's `max_x = max(max_x, cell.x_score)` accumulator. -/
noncomputable def maxBy (f : GridCell → ℝ) (cells : List GridCell) : ℝ :=
  cells.foldl (fun m c => max m (f c)) 0

/-- The source's normalization step
`score / max_score if max_score > 0 else 0`. -/
noncomputable def normed (x m : ℝ) : ℝ :=
  if 0 < m then x / m else 0

/-- `calculate_footfall_scores`: three influence passes, each followed by
taking the running maximum of the corresponding raw score (the source
updates the maximum inside the same loop; the maximum over the finished
list is the same value), then a final pass dividing each raw score by its
maximum (`0` when the maximum is `0` — the source never subtracts a
minimum) and combining with the configured weights. -/
noncomputable def calculate_footfall_scores (cells : List GridCell)
    (tubes : List TubeStation) (buses : List BusStop)
    (premises : List LicensedPremises) (config : Config) : List GridCell :=
  let c1 := addTubeScores cells tubes config
  let maxT := maxBy (fun c => c.tube_score) c1
  let c2 := addBusScores c1 buses config
  let maxB := maxBy (fun c => c.bus_score) c2
  let c3 := addPremisesScores c2 premises config
  let maxP := maxBy (fun c => c.premises_score) c3
  c3.map (fun c =>
    { c with footfall_score :=
        (config.TUBE_WEIGHT : ℝ) * normed c.tube_score maxT +
        (config.BUS_WEIGHT : ℝ) * normed c.bus_score maxB +
        (config.PREMISES_WEIGHT : ℝ) * normed c.premises_score maxP })

/-- A tube station lying at the origin with usage weight 100. -/
def stationAtCenter : TubeStation :=
  { name := "S", lat := 0, lon := 0, annual_usage := 100 }

/-- A tube station exactly one tube-influence-radius east of the origin. -/
def stationAtRadius : TubeStation :=
  { name := "T", lat := 0, lon := 1/200, annual_usage := 100 }

/-- A grid cell centered at the origin. -/
def cellAtOrigin : GridCell :=
  { cell_id := "CELL00000", center_lat := 0, center_lon := 0 }

/-- A grid cell half a tube-influence-radius north of the origin. -/
def cellQuarter : GridCell :=
  { cell_id := "CELL00001", center_lat := 1/400, center_lon := 0 }

/-- Modelled from the spec: the min-max normalization
`(x - min) / (max - min)` prescribed by the specification, with the
minimum and maximum both computed from the run's score vector.  (The
source instead divides by the maximum alone, implicitly assuming the
minimum is `0`.) -/
noncomputable def specMinMaxNorm (xs : List ℝ) (x : ℝ) : ℝ :=
  (x - xs.foldl min (xs.headD 0)) /
    (xs.foldl max (xs.headD 0) - xs.foldl min (xs.headD 0))

/-!  Categorization (`categorize_cells`) and derived estimates. -/

/-- The source's fixed list of eight category labels. -/
def category_names : List String :=
  ["Very Low Footfall (Residential)", "Low Footfall", "Low-Medium Footfall",
   "Medium Footfall", "Medium-High Footfall", "High Footfall",
   "Very High Footfall", "Peak Footfall (Commercial Core)"]

/-- `estimate_people_per_hour`: a category-indexed base constant plus an
intra-category linear adjustment by score, floored at 10. -/
noncomputable def estimate_people_per_hour (footfall_score : ℝ)
    (footfall_category : ℕ) : ℝ :=
  let category_bases : List ℝ := [50, 150, 350, 700, 1200, 2000, 3500, 5000]
  let base := category_bases.getD footfall_category 0
  let variation := base * 0.3 * (footfall_score * 2 - 0.5)
  max 10 (base + variation)

/-- `estimate_bin_fill_rate`: waste-generation model, capped at 200%. -/
noncomputable def estimate_bin_fill_rate (people_per_hour : ℝ)
    (bin_capacity : ℝ := 240) : ℝ :=
  let waste_per_person : ℝ := 0.02
  let waste_density : ℝ := 0.1
  let active_hours : ℝ := 12
  let daily_waste_kg := people_per_hour * active_hours * waste_per_person
  let daily_waste_liters := daily_waste_kg / waste_density
  min 200 (daily_waste_liters / bin_capacity * 100)

/-- Comparison used by the source's `sorted(cells, key=lambda c:
c.footfall_score)`, lifted to cells tagged with their original list
position. -/
def scoreLE (p q : ℕ × GridCell) : Prop :=
  p.2.footfall_score ≤ q.2.footfall_score

noncomputable instance : DecidableRel scoreLE :=
  fun p q => inferInstanceAs (Decidable (p.2.footfall_score ≤ q.2.footfall_score))

/-- The stable ascending sort of the cells by composite score, tagged
with original positions (Python's `sorted` is stable; insertion sort
with a non-strict comparison realizes the same stable order). -/
noncomputable def sortedEnum (cells : List GridCell) : List (ℕ × GridCell) :=
  List.insertionSort scoreLE cells.enum

/-- The 0-based rank of the cell at original position `j` in the stable
ascending sort. -/
noncomputable def rankOf (cells : List GridCell) (j : ℕ) : ℕ :=
  (sortedEnum cells).findIdx (fun p => p.1 == j)

/-- `categorize_cells`: sort by composite score (stable), give the cell
of 0-based sorted position `i` out of `n` the category
`min(int(i/n * K), K-1)` (exact rational arithmetic embeds the float
division), attach the fixed label, and compute the derived
people-per-hour and fill-rate estimates from the assigned category.  The
source's ward/road-name tagging (whose road choice is driven by Python's
seeded RNG) is not modelled; no claim concerns those string fields. -/
noncomputable def categorize_cells (cells : List GridCell) (config : Config) :
    List GridCell :=
  let n := cells.length
  cells.enum.map (fun jc =>
    let category := min (rankOf cells jc.1 * config.N_FOOTFALL_CATEGORIES / n)
      (config.N_FOOTFALL_CATEGORIES - 1)
    let c := jc.2
    let people := estimate_people_per_hour c.footfall_score category
    { c with footfall_category := category,
             footfall_category_name := category_names.getD category "",
             estimated_people_per_hour := people,
             estimated_bin_fill_rate := estimate_bin_fill_rate people })

/-- The strict order realized by the stable sort: ascending score with
ties broken by original position. -/
def scoreRank (p q : ℕ × GridCell) : Prop :=
  p.2.footfall_score < q.2.footfall_score ∨
    (p.2.footfall_score = q.2.footfall_score ∧ p.1 < q.1)

/-- Number of cells carrying a given footfall category. -/
def categoryPopulation (out : List GridCell) (cat : ℕ) : ℕ :=
  (out.filter (fun c => c.footfall_category == cat)).length

/-!  Bin assignment (`assign_bins_to_cells`) and sensor placement
(`optimize_sensor_placement`). -/

/-- The source's nearest-cell linear scan: `min_dist` starts at infinity
and `nearest_cell` at `None`, so the first cell is always adopted and a
later cell only on a strictly smaller distance (ties keep the earlier
cell). -/
noncomputable def nearestStep (b : BinLocation)
    (acc : Option (GridCell × ℝ)) (cell : GridCell) :
    Option (GridCell × ℝ) :=
  let dist := Point.distance_to ⟨b.lat, b.lon⟩
    ⟨cell.center_lat, cell.center_lon⟩
  match acc with
  | none => some (cell, dist)
  | some (c0, m) => if dist < m then some (cell, dist) else some (c0, m)

noncomputable def nearestScan (b : BinLocation) (cells : List GridCell) :
    Option (GridCell × ℝ) :=
  cells.foldl (nearestStep b) none

/-- One iteration of `assign_bins_to_cells`: link the bin to its nearest
cell (copying the cell's id, category, score and derived fields) exactly
when the nearest distance is strictly below `GRID_RESOLUTION * 2`; the
boolean reports whether the bin was assigned (the source's `assigned`
counter). -/
noncomputable def assignBin (b : BinLocation) (cells : List GridCell)
    (config : Config) : BinLocation × Bool :=
  match nearestScan b cells with
  | some (cell, m) =>
      if m < (config.GRID_RESOLUTION : ℝ) * 2 then
        ({ b with cell_id := cell.cell_id,
                  footfall_category := cell.footfall_category,
                  footfall_score := cell.footfall_score,
                  ward := cell.ward,
                  road_name := cell.road_name,
                  estimated_people_per_hour := cell.estimated_people_per_hour,
                  estimated_bin_fill_rate := cell.estimated_bin_fill_rate }, true)
      else (b, false)
  | none => (b, false)

/-- `assign_bins_to_cells`: per-bin nearest-cell linkage plus the
reported count of assigned bins (the source prints this count; the loop
treats each bin independently, so the single loop with a counter equals
a map plus a count). -/
noncomputable def assign_bins_to_cells (bins : List BinLocation)
    (cells : List GridCell) (config : Config) : List BinLocation × ℕ :=
  (bins.map (fun b => (assignBin b cells config).1),
   bins.countP (fun b => (assignBin b cells config).2))

/-- Positions (into the bins list) of the bins with a nonempty `cell_id`
— the source's `assigned_bins` alias list, kept as indices so that
mutation through the alias updates the backing list. -/
def assignedIdx (bins : List BinLocation) : List ℕ :=
  (List.range bins.length).filter
    (fun i => (bins.getD i default).cell_id != "")

/-- The source's `category_counts[cat]`: how many assigned bins carry the
category. -/
def catCount (bins : List BinLocation) (cat : ℕ) : ℕ :=
  ((assignedIdx bins).filter
    (fun i => (bins.getD i default).footfall_category == cat)).length

/-- The categories present among assigned bins, in the ascending order in
which the source iterates them (`sorted(target_per_category.keys())`). -/
def binCategories (bins : List BinLocation) : List ℕ :=
  List.insertionSort (fun a b => a ≤ b)
    (((assignedIdx bins).map
      (fun i => (bins.getD i default).footfall_category)).dedup)

/-- `total_sqrt = sum(sqrt(count) for count in category_counts.values())`. -/
noncomputable def totalSqrt (bins : List BinLocation) : ℝ :=
  ((binCategories bins).map (fun c => Real.sqrt (catCount bins c))).sum

/-- Per-category target before reconciliation:
`int(n_sensors * sqrt(count) / total_sqrt)` (truncation equals the floor
on this non-negative value), floored at `min(20, count)` and capped at
`count`. -/
noncomputable def initialTarget (bins : List BinLocation) (n_sensors : ℕ)
    (c : ℕ) : ℕ :=
  let count := catCount bins c
  let t1 := (⌊((n_sensors : ℝ) * Real.sqrt (count : ℕ)) / totalSqrt bins⌋).toNat
  min (max t1 (min 20 count)) count

/-- Sum of the pre-reconciliation targets (`current_total` before the
adjustment loop). -/
noncomputable def initialTargetSum (bins : List BinLocation)
    (n_sensors : ℕ) : ℕ :=
  ((binCategories bins).map (initialTarget bins n_sensors)).sum

/-- One pass of the source's reconciliation `for` loop: walk the
categories in ascending order, increment every target still below its
category's availability, and break as soon as the running total reaches
`n_sensors`. -/
def adjustPass (counts : ℕ → ℕ) (n_sensors : ℕ) :
    List ℕ → (ℕ → ℕ) → ℕ → ((ℕ → ℕ) × ℕ)
  | [], t, total => (t, total)
  | c :: rest, t, total =>
      if t c < counts c then
        let t2 := fun x => if x = c then t c + 1 else t x
        if n_sensors ≤ total + 1 then (t2, total + 1)
        else adjustPass counts n_sensors rest t2 (total + 1)
      else adjustPass counts n_sensors rest t total

/-- The source's `while current_total < n_sensors` reconciliation loop.
Each pass strictly increases the total while the total is below
`n_sensors` and some category has headroom, so `n_sensors` units of fuel
always suffice; the fuel only models the loop's a-priori bound, not a
behavioral cutoff. -/
def reconcile (counts : ℕ → ℕ) (n_sensors : ℕ) (cs : List ℕ) :
    ℕ → (ℕ → ℕ) → ℕ → ((ℕ → ℕ) × ℕ)
  | 0, t, total => (t, total)
  | fuel + 1, t, total =>
      if total < n_sensors then
        let r := adjustPass counts n_sensors cs t total
        reconcile counts n_sensors cs fuel r.1 r.2
      else (t, total)

/-- The reconciled targets and their total. -/
noncomputable def finalState (bins : List BinLocation) (n_sensors : ℕ) :
    (ℕ → ℕ) × ℕ :=
  reconcile (catCount bins) n_sensors (binCategories bins) n_sensors
    (initialTarget bins n_sensors) (initialTargetSum bins n_sensors)

/-- The non-strict lexicographic order on `(lat, lon)` used by the
source's stable `cat_bins.sort(key=lambda b: (b.lat, b.lon))`, lifted to
positions of the backing bins list. -/
def latlonLE (bins : List BinLocation) (i j : ℕ) : Prop :=
  (bins.getD i default).lat < (bins.getD j default).lat ∨
    ((bins.getD i default).lat = (bins.getD j default).lat ∧
      (bins.getD i default).lon ≤ (bins.getD j default).lon)

instance (bins : List BinLocation) : DecidableRel (latlonLE bins) :=
  fun i j => inferInstanceAs (Decidable (_ ∨ _))

/-- The positions of the category's assigned bins, stably sorted by
`(lat, lon)`. -/
def catIdxSorted (bins : List BinLocation) (cat : ℕ) : List ℕ :=
  List.insertionSort (latlonLE bins)
    ((assignedIdx bins).filter
      (fun i => (bins.getD i default).footfall_category == cat))

/-- The positions selected by the source's evenly-spaced stride
`range(0, len(cat_bins), step)` with `step = max(1, len // target)`,
truncated to the first `target` entries. -/
def selectPositions (len t : ℕ) : List ℕ :=
  let step := max 1 (len / t)
  ((List.range ((len + step - 1) / step)).map (fun k => k * step)).take t

/-- The bin-list positions selected for one category. -/
def selectedIdxForCat (bins : List BinLocation) (cat t : ℕ) : List ℕ :=
  (selectPositions (catIdxSorted bins cat).length t).map
    (fun p => (catIdxSorted bins cat).getD p 0)

/-- The bin at position `i` with its selection flag and rank set. -/
def selBin (bins : List BinLocation) (i rank : ℕ) : BinLocation :=
  { bins.getD i default with
    selected_for_sensor := true, selection_rank := rank }

/-- Apply the selection flags: set `selected_for_sensor` and consecutive
`selection_rank`s on the bins at the given positions, in order. -/
def applySel : List BinLocation → List ℕ → ℕ → List BinLocation
  | bins, [], _ => bins
  | bins, i :: rest, rank =>
      applySel (bins.set i (selBin bins i rank)) rest (rank + 1)

/-- `optimize_sensor_placement`.  If fewer assigned bins exist than
requested sensors, every assigned bin is selected with ranks in list
order (the short-circuit path).  Otherwise each category (ascending id)
contributes its reconciled target's worth of evenly-spaced bins, ranked
globally in processing order.  The result is the updated bins list
together with the selected positions in rank order (the source returns
the selected bin objects themselves and mutates the list in place; the
`n_categories` parameter is unused in the source's body as well). -/
noncomputable def optimize_sensor_placement (bins : List BinLocation)
    (n_sensors : ℕ) (n_categories : ℕ) : List BinLocation × List ℕ :=
  if (assignedIdx bins).length < n_sensors then
    (applySel bins (assignedIdx bins) 1, assignedIdx bins)
  else
    let t := (finalState bins n_sensors).1
    let selIdx := (binCategories bins).flatMap
      (fun c => selectedIdxForCat bins c (t c))
    (applySel bins selIdx 1, selIdx)


/-- Two assigned bins in two distinct footfall categories: concrete data
exercising the optimizer's per-category floor. -/
def cexBinA : BinLocation :=
  { bin_id := "A", lat := 0, lon := 0, cell_id := "CELL00000",
    footfall_category := 0 }

def cexBinB : BinLocation :=
  { bin_id := "B", lat := 1, lon := 0, cell_id := "CELL00001",
    footfall_category := 1 }

def cexBins : List BinLocation := [cexBinA, cexBinB]

/-- A single assigned bin: concrete data for the optimizer theorems. -/
def wBin : BinLocation :=
  { bin_id := "W", lat := 0, lon := 0, cell_id := "CELL00002",
    footfall_category := 3 }

/-- A grid cell and an unassigned bin at the same location: concrete
data for the bin-assignment theorem. -/
def wCell : GridCell :=
  { cell_id := "CELL00000", center_lat := 0, center_lon := 0,
    footfall_category := 2, ward := "W1", road_name := "R1" }

def freshBin : BinLocation :=
  { bin_id := "F", lat := 0, lon := 0 }

/-!  The backend server's analysis runner (`src/backend/server.py`,
`run_full_analysis`).  The `AnalysisState` singleton publishes each field
to HTTP observers the moment it is assigned (its getters/setters only
add a lock), so the observable state is the record below.  Every
filesystem/CSV touching call inside the `try` block can raise; each is
modelled as an oracle outcome `Except String α` supplied up front, while
the pure pipeline stages are the functions embedded above. -/

structure ServerState where
  config : Config := {}
  tubes : Option (List TubeStation) := none
  buses : Option (List BusStop) := none
  premises : Option (List LicensedPremises) := none
  cells : Option (List GridCell) := none
  bins : Option (List BinLocation) := none
  selected_bins : Option (List BinLocation) := none
  status : String := "idle"
  progress : ℕ := 0
  message : String := "Ready to run"

/-- Outcomes of the I/O-performing calls of `run_full_analysis`, in
program order. -/
structure ExternalStages where
  load_tube_stations : Except String (List TubeStation)
  load_bus_stops : Except String (List BusStop)
  load_licensed_premises : Except String (List LicensedPremises)
  mkdir_data : Except String Unit
  generate_sample_bins : Except String Unit
  load_bins_from_csv : Except String (List BinLocation)
  mkdir_output : Except String Unit
  save_grid_csv : Except String Unit
  save_geojson : Except String Unit
  save_selected_bins_csv : Except String Unit

/-- The `except Exception` handler: `state.status = "error"`,
`state.message = f"Error: {str(e)}"`; everything already published
stays as it is. -/
def failWith (st : ServerState) (e : String) : ServerState :=
  { st with status := "error", message := "Error: " ++ e }

set_option maxHeartbeats 1000000 in
/-- `run_full_analysis`: the pipeline with its interleaved publications.
Each `state.x = ...` assignment of the source is a record update here,
in source order; a raised exception at any I/O call aborts into
`failWith` with the state as already mutated. -/
noncomputable def run_full_analysis (st0 : ServerState)
    (ext : ExternalStages) : ServerState :=
  let st := { st0 with status := "running", progress := 0,
                       message := "Initializing..." }
  let st := { st with progress := 5,
                      message := "Loading tube station data..." }
  match ext.load_tube_stations with
  | .error e => failWith st e
  | .ok tubes =>
  let st := { st with tubes := some tubes }
  let st := { st with progress := 15,
                      message := "Loading bus stop data..." }
  match ext.load_bus_stops with
  | .error e => failWith st e
  | .ok buses =>
  let st := { st with buses := some buses }
  let st := { st with progress := 25,
                      message := "Loading licensed premises data..." }
  match ext.load_licensed_premises with
  | .error e => failWith st e
  | .ok premises =>
  let st := { st with premises := some premises }
  let st := { st with progress := 35,
                      message := "Creating analysis grid..." }
  let cells := create_grid st.config
  let st := { st with progress := 45,
                      message := "Calculating footfall scores..." }
  let cells := calculate_footfall_scores cells tubes buses premises
    st.config
  let st := { st with progress := 60,
                      message := "Categorizing footfall zones..." }
  let cells := categorize_cells cells st.config
  let st := { st with cells := some cells }
  let st := { st with progress := 70,
                      message := "Generating sample bin locations..." }
  match ext.mkdir_data with
  | .error e => failWith st e
  | .ok _ =>
  match ext.generate_sample_bins with
  | .error e => failWith st e
  | .ok _ =>
  match ext.load_bins_from_csv with
  | .error e => failWith st e
  | .ok bins =>
  let st := { st with progress := 80,
                      message := "Assigning bins to grid cells..." }
  let bins := (assign_bins_to_cells bins cells st.config).1
  let st := { st with progress := 90,
                      message := "Optimizing sensor placement..." }
  let bins := (optimize_sensor_placement bins 1000
    st.config.N_FOOTFALL_CATEGORIES).1
  let st := { st with bins := some bins }
  let st := { st with progress := 95, message := "Saving results..." }
  match ext.mkdir_output with
  | .error e => failWith st e
  | .ok _ =>
  match ext.save_grid_csv with
  | .error e => failWith st e
  | .ok _ =>
  match ext.save_geojson with
  | .error e => failWith st e
  | .ok _ =>
  match ext.save_selected_bins_csv with
  | .error e => failWith st e
  | .ok _ =>
  { st with progress := 100, message := "Analysis complete!",
            status := "complete" }

/-- A server state after a prior successful run: one published cell and
one published bin. -/
noncomputable def cexInitState : ServerState :=
  { tubes := some [], buses := some [], premises := some [],
    cells := some [wCell], bins := some [cexBinA],
    status := "complete", progress := 100,
    message := "Analysis complete!" }

/-- Oracle outcomes for a re-run that loads fresh (empty) data
successfully and then fails while saving the grid CSV. -/
def cexExt : ExternalStages :=
  { load_tube_stations := .ok [], load_bus_stops := .ok [],
    load_licensed_premises := .ok [], mkdir_data := .ok (),
    generate_sample_bins := .ok (), load_bins_from_csv := .ok [],
    mkdir_output := .ok (), save_grid_csv := .error "disk full",
    save_geojson := .ok (), save_selected_bins_csv := .ok () }

/-! ## Theorems -/


/-- C7 (counterexample): for an empty bounding box (`MIN_LAT = 52 >
51 = MAX_LAT`, so `min >= max` on the latitude axis) `create_grid`
is not rejected: it returns the perfectly normal, non-error result `[]`.
The source contains no bounding-box validation and no error path. -/
theorem create_grid_no_validation_cex :
    emptyBoxConfig.MAX_LAT ≤ emptyBoxConfig.MIN_LAT ∧
      create_grid emptyBoxConfig = [] :=
  ⟨by norm_num [emptyBoxConfig], rfl⟩

/-- C7 (amended): `create_grid` performs no bounding-box validation and
reports no error; whenever `min > max` on either axis it simply returns
the empty list as a normal result (the corresponding scan loop body
never runs). -/
theorem create_grid_empty_box (config : Config)
    (h : config.MAX_LAT < config.MIN_LAT ∨ config.MAX_LON < config.MIN_LON) :
    create_grid config = [] := by
  rcases h with h | h
  · have hz : numSteps config.MIN_LAT config.MAX_LAT config.GRID_RESOLUTION = 0 := by
      unfold numSteps
      rw [if_neg]
      intro hc
      exact absurd hc.1 (not_le.mpr h)
    simp [create_grid, hz]
  · have hz : numSteps config.MIN_LON config.MAX_LON config.GRID_RESOLUTION = 0 := by
      unfold numSteps
      rw [if_neg]
      intro hc
      exact absurd hc.1 (not_le.mpr h)
    simp [create_grid, hz]

/-- Witness for `create_grid_empty_box` at a concrete inverted box. -/
theorem create_grid_empty_box_witness :
    create_grid { MIN_LON := 1, MAX_LON := 0 } = [] :=
  create_grid_empty_box { MIN_LON := 1, MAX_LON := 0 } (Or.inr (by norm_num))

/-- Accumulating a per-element contribution with `foldl` equals adding the
sum of the contributions. -/
theorem foldl_add_sum {α : Type} (f : α → ℝ) (l : List α) (a : ℝ) :
    l.foldl (fun s t => s + f t) a = a + (l.map f).sum := by
  induction l generalizing a with
  | nil => simp
  | cons x xs ih => simp [ih, add_assoc]

/-- `getD` after `map`, inside the list bounds. -/
theorem getD_map {α β : Type} (f : α → β) (l : List α) (i : ℕ)
    (h : i < l.length) (d : β) (d2 : α) :
    (l.map f).getD i d = f (l.getD i d2) := by
  simp [List.getD_eq_getElem?_getD, List.getElem?_map,
    List.getElem?_eq_getElem, h]

/-- C4: a tube station contributes
`usage_weight * (1 - dist/radius)^2` to a cell's raw tube score exactly
when its distance to the cell center is strictly below the tube influence
radius and `0` otherwise (in particular a station at distance exactly the
radius contributes `0`); the cell's `tube_score` after the tube pass is
its previous value plus the sum of all stations' contributions; and a
station at the cell's exact center contributes
`usage * (1 - 0/radius)^2` — this variant applies no distance floor, the
zero distance is used as-is. -/
theorem tube_influence_spec (config : Config) (cells : List GridCell)
    (tubes : List TubeStation) :
    (∀ i, i < cells.length →
      ((addTubeScores cells tubes config).getD i default).tube_score =
        (cells.getD i default).tube_score +
          (tubes.map (fun t => tubeInfluence config (cells.getD i default) t)).sum) ∧
    (∀ (cell : GridCell) (t : TubeStation),
      (config.TUBE_INFLUENCE_RADIUS : ℝ) ≤
          Point.distance_to ⟨cell.center_lat, cell.center_lon⟩ ⟨t.lat, t.lon⟩ →
      tubeInfluence config cell t = 0) ∧
    (∀ (cell : GridCell) (t : TubeStation),
      Point.distance_to ⟨cell.center_lat, cell.center_lon⟩ ⟨t.lat, t.lon⟩ <
          (config.TUBE_INFLUENCE_RADIUS : ℝ) →
      tubeInfluence config cell t =
        (t.annual_usage : ℝ) *
          (1 - Point.distance_to ⟨cell.center_lat, cell.center_lon⟩ ⟨t.lat, t.lon⟩ /
            (config.TUBE_INFLUENCE_RADIUS : ℝ)) ^ 2) ∧
    (∀ (cell : GridCell) (t : TubeStation),
      t.lat = cell.center_lat → t.lon = cell.center_lon →
      0 < config.TUBE_INFLUENCE_RADIUS →
      tubeInfluence config cell t =
        (t.annual_usage : ℝ) * (1 - 0 / (config.TUBE_INFLUENCE_RADIUS : ℝ)) ^ 2) := by
  refine ⟨?_, ?_, ?_, ?_⟩
  · intro i hi
    unfold addTubeScores
    rw [getD_map _ _ _ hi _ default]
    simp [foldl_add_sum]
  · intro cell t h
    unfold tubeInfluence
    rw [if_neg (not_lt.mpr h)]
  · intro cell t h
    unfold tubeInfluence
    rw [if_pos h]
  · intro cell t hlat hlon hR
    have hd : Point.distance_to ⟨cell.center_lat, cell.center_lon⟩
        ⟨t.lat, t.lon⟩ = 0 := by
      unfold Point.distance_to Point.dist2
      rw [hlat, hlon]
      norm_num
    unfold tubeInfluence
    rw [hd, if_pos (by exact_mod_cast hR)]

/-- Witness for `tube_influence_spec`: with the default configuration
(tube radius `0.005 = 1/200`), a station at distance exactly the radius
contributes `0`, and a station of weight 100 at the cell's exact center
contributes `100 * (1 - 0/0.005)^2 = 100`. -/
theorem tube_influence_spec_witness :
    tubeInfluence {} cellAtOrigin stationAtRadius = 0 ∧
      tubeInfluence {} cellAtOrigin stationAtCenter =
        100 * (1 - 0 / ((0.005 : ℚ) : ℝ)) ^ 2 := by
  constructor
  · apply (tube_influence_spec {} [] []).2.1
    have h2 : Point.dist2 ⟨cellAtOrigin.center_lat, cellAtOrigin.center_lon⟩
        ⟨stationAtRadius.lat, stationAtRadius.lon⟩ = 1/40000 := by
      norm_num [Point.dist2, stationAtRadius, cellAtOrigin]
    have : Point.distance_to ⟨cellAtOrigin.center_lat, cellAtOrigin.center_lon⟩
        ⟨stationAtRadius.lat, stationAtRadius.lon⟩ = ((1 : ℝ)/200) := by
      unfold Point.distance_to
      rw [h2, show (((1/40000 : ℚ)) : ℝ) = (1/200 : ℝ) ^ 2 by push_cast; norm_num]
      exact Real.sqrt_sq (by norm_num)
    rw [this]
    norm_num [Config.TUBE_INFLUENCE_RADIUS]
  · have h := (tube_influence_spec {} [] []).2.2.2 cellAtOrigin stationAtCenter
      rfl rfl (by norm_num [Config.TUBE_INFLUENCE_RADIUS])
    rw [h]
    norm_num [stationAtCenter, Config.TUBE_INFLUENCE_RADIUS]

/-- Any initial accumulator bounds the running maximum from below. -/
theorem le_foldl_max (f : GridCell → ℝ) (l : List GridCell) (a : ℝ) :
    a ≤ l.foldl (fun m c => max m (f c)) a := by
  induction l generalizing a with
  | nil => simp
  | cons x xs ih => exact le_trans (le_max_left a (f x)) (ih (max a (f x)))

/-- Every member's score bounds the running maximum from below. -/
theorem mem_le_foldl_max (f : GridCell → ℝ) (l : List GridCell) (a : ℝ) :
    ∀ c ∈ l, f c ≤ l.foldl (fun m c => max m (f c)) a := by
  induction l generalizing a with
  | nil => simp
  | cons x xs ih =>
    intro c hc
    rcases List.mem_cons.mp hc with h | h
    · subst h
      exact le_trans (le_max_right a (f c)) (le_foldl_max f xs _)
    · exact ih _ c h

theorem maxBy_nonneg (f : GridCell → ℝ) (l : List GridCell) : 0 ≤ maxBy f l :=
  le_foldl_max f l 0

theorem le_maxBy (f : GridCell → ℝ) (l : List GridCell) :
    ∀ c ∈ l, f c ≤ maxBy f l :=
  mem_le_foldl_max f l 0

theorem tubeInfluence_nonneg (config : Config) (cell : GridCell)
    (t : TubeStation) (h : 0 ≤ t.annual_usage) :
    0 ≤ tubeInfluence config cell t := by
  simp only [tubeInfluence]
  split_ifs
  · exact mul_nonneg (by exact_mod_cast h) (sq_nonneg _)
  · exact le_refl 0

theorem busInfluence_nonneg (config : Config) (cell : GridCell)
    (b : BusStop) (h : 0 ≤ b.frequency) :
    0 ≤ busInfluence config cell b := by
  simp only [busInfluence]
  split_ifs with hlt
  · have hd : (0 : ℝ) ≤ Point.distance_to ⟨cell.center_lat, cell.center_lon⟩
        ⟨b.lat, b.lon⟩ := Real.sqrt_nonneg _
    have hR : (0 : ℝ) < (config.BUS_INFLUENCE_RADIUS : ℝ) := lt_of_le_of_lt hd hlt
    have h1 : Point.distance_to ⟨cell.center_lat, cell.center_lon⟩ ⟨b.lat, b.lon⟩ /
        (config.BUS_INFLUENCE_RADIUS : ℝ) ≤ 1 := le_of_lt ((div_lt_one hR).mpr hlt)
    exact mul_nonneg (by exact_mod_cast h) (by linarith)
  · exact le_refl 0

theorem premisesInfluence_nonneg (config : Config) (cell : GridCell)
    (p : LicensedPremises) (h : 0 ≤ p.capacity) :
    0 ≤ premisesInfluence config cell p := by
  simp only [premisesInfluence]
  split_ifs with hlt
  · have hd : (0 : ℝ) ≤ Point.distance_to ⟨cell.center_lat, cell.center_lon⟩
        ⟨p.lat, p.lon⟩ := Real.sqrt_nonneg _
    have hR : (0 : ℝ) < (config.PREMISES_INFLUENCE_RADIUS : ℝ) := lt_of_le_of_lt hd hlt
    have h1 : Point.distance_to ⟨cell.center_lat, cell.center_lon⟩ ⟨p.lat, p.lon⟩ /
        (config.PREMISES_INFLUENCE_RADIUS : ℝ) ≤ 1 := le_of_lt ((div_lt_one hR).mpr hlt)
    exact mul_nonneg (by exact_mod_cast h) (by linarith)
  · exact le_refl 0

theorem addTubeScores_getD (cells : List GridCell) (tubes : List TubeStation)
    (config : Config) (i : ℕ) (hi : i < cells.length) :
    (addTubeScores cells tubes config).getD i default =
      { cells.getD i default with tube_score :=
          (cells.getD i default).tube_score +
            (tubes.map (fun t => tubeInfluence config (cells.getD i default) t)).sum } := by
  unfold addTubeScores
  rw [getD_map _ _ _ hi _ default, foldl_add_sum]

theorem addBusScores_getD (cells : List GridCell) (buses : List BusStop)
    (config : Config) (i : ℕ) (hi : i < cells.length) :
    (addBusScores cells buses config).getD i default =
      { cells.getD i default with bus_score :=
          (cells.getD i default).bus_score +
            (buses.map (fun b => busInfluence config (cells.getD i default) b)).sum } := by
  unfold addBusScores
  rw [getD_map _ _ _ hi _ default, foldl_add_sum]

theorem addPremisesScores_getD (cells : List GridCell)
    (premises : List LicensedPremises) (config : Config) (i : ℕ)
    (hi : i < cells.length) :
    (addPremisesScores cells premises config).getD i default =
      { cells.getD i default with premises_score :=
          (cells.getD i default).premises_score +
            (premises.map (fun p => premisesInfluence config (cells.getD i default) p)).sum } := by
  unfold addPremisesScores
  rw [getD_map _ _ _ hi _ default, foldl_add_sum]

theorem normed_nonneg (x m : ℝ) (hx : 0 ≤ x) : 0 ≤ normed x m := by
  unfold normed
  split_ifs with h
  · exact div_nonneg hx h.le
  · exact le_refl 0

theorem normed_le_one (x m : ℝ) (hxm : x ≤ m) : normed x m ≤ 1 := by
  unfold normed
  split_ifs with h
  · exact (div_le_one h).mpr hxm
  · norm_num

/-- A defaulted index access inside the bounds is a member. -/
theorem getD_mem_of_lt {α : Type} (l : List α) (i : ℕ) (h : i < l.length)
    (d : α) : l.getD i d ∈ l := by
  rw [List.getD_eq_getElem?_getD, List.getElem?_eq_getElem h]
  exact List.getElem_mem h

/-- C3 (amended): after the three raw influence sums are computed over the
whole cell set, each component is normalized by dividing by that run's
maximum raw value over all the cells (taking `0` when the maximum is
`0`); the source never subtracts the computed minimum, so this is
min-max normalization only under the implicit assumption that the
minimum is `0`.  Each normalized component lies in `[0,1]`, and every
cell's `footfall_score` equals the configured weighted combination of
the three normalized components. -/
theorem footfall_composite (cells : List GridCell) (tubes : List TubeStation)
    (buses : List BusStop) (premises : List LicensedPremises) (config : Config)
    (hu : ∀ t ∈ tubes, 0 ≤ t.annual_usage)
    (hb : ∀ b ∈ buses, 0 ≤ b.frequency)
    (hp : ∀ p ∈ premises, 0 ≤ p.capacity)
    (h0 : ∀ c ∈ cells, c.tube_score = 0 ∧ c.bus_score = 0 ∧ c.premises_score = 0)
    (i : ℕ) (hi : i < cells.length) :
    ((calculate_footfall_scores cells tubes buses premises config).getD i default).footfall_score =
      (config.TUBE_WEIGHT : ℝ) *
        normed (((calculate_footfall_scores cells tubes buses premises config).getD i default).tube_score)
          (maxBy (fun c => c.tube_score) (addTubeScores cells tubes config)) +
      (config.BUS_WEIGHT : ℝ) *
        normed (((calculate_footfall_scores cells tubes buses premises config).getD i default).bus_score)
          (maxBy (fun c => c.bus_score)
            (addBusScores (addTubeScores cells tubes config) buses config)) +
      (config.PREMISES_WEIGHT : ℝ) *
        normed (((calculate_footfall_scores cells tubes buses premises config).getD i default).premises_score)
          (maxBy (fun c => c.premises_score)
            (addPremisesScores (addBusScores (addTubeScores cells tubes config) buses config)
              premises config)) ∧
    (0 ≤ normed (((calculate_footfall_scores cells tubes buses premises config).getD i default).tube_score)
          (maxBy (fun c => c.tube_score) (addTubeScores cells tubes config)) ∧
      normed (((calculate_footfall_scores cells tubes buses premises config).getD i default).tube_score)
          (maxBy (fun c => c.tube_score) (addTubeScores cells tubes config)) ≤ 1) ∧
    (0 ≤ normed (((calculate_footfall_scores cells tubes buses premises config).getD i default).bus_score)
          (maxBy (fun c => c.bus_score)
            (addBusScores (addTubeScores cells tubes config) buses config)) ∧
      normed (((calculate_footfall_scores cells tubes buses premises config).getD i default).bus_score)
          (maxBy (fun c => c.bus_score)
            (addBusScores (addTubeScores cells tubes config) buses config)) ≤ 1) ∧
    (0 ≤ normed (((calculate_footfall_scores cells tubes buses premises config).getD i default).premises_score)
          (maxBy (fun c => c.premises_score)
            (addPremisesScores (addBusScores (addTubeScores cells tubes config) buses config)
              premises config)) ∧
      normed (((calculate_footfall_scores cells tubes buses premises config).getD i default).premises_score)
          (maxBy (fun c => c.premises_score)
            (addPremisesScores (addBusScores (addTubeScores cells tubes config) buses config)
              premises config)) ≤ 1) := by
  set c1 := addTubeScores cells tubes config with hc1
  set c2 := addBusScores c1 buses config with hc2
  set c3 := addPremisesScores c2 premises config with hc3
  have l1 : c1.length = cells.length := by simp [hc1, addTubeScores]
  have l2 : c2.length = cells.length := by simp [hc2, addBusScores, l1]
  have l3 : c3.length = cells.length := by simp [hc3, addPremisesScores, l2]
  have hi1 : i < c1.length := l1 ▸ hi
  have hi2 : i < c2.length := l2 ▸ hi
  have hi3 : i < c3.length := l3 ▸ hi
  have eo : (calculate_footfall_scores cells tubes buses premises config).getD i default =
      { c3.getD i default with
        footfall_score := (config.TUBE_WEIGHT : ℝ) *
            normed ((c3.getD i default).tube_score) (maxBy (fun c => c.tube_score) c1) +
          (config.BUS_WEIGHT : ℝ) *
            normed ((c3.getD i default).bus_score) (maxBy (fun c => c.bus_score) c2) +
          (config.PREMISES_WEIGHT : ℝ) *
            normed ((c3.getD i default).premises_score)
              (maxBy (fun c => c.premises_score) c3) } := by
    simp only [calculate_footfall_scores]
    rw [← hc1, ← hc2, ← hc3]
    exact getD_map _ _ _ hi3 _ default
  have e1 := addTubeScores_getD cells tubes config i hi
  have e2 := addBusScores_getD c1 buses config i hi1
  have e3 := addPremisesScores_getD c2 premises config i hi2
  rw [← hc1] at e1
  rw [← hc2] at e2
  rw [← hc3] at e3
  have h0i := h0 _ (getD_mem_of_lt cells i hi default)
  have ptube3 : (c3.getD i default).tube_score = (c1.getD i default).tube_score := by
    rw [e3, e2]
  have pbus3 : (c3.getD i default).bus_score = (c2.getD i default).bus_score := by
    rw [e3]
  have rawT_nonneg : 0 ≤ (c1.getD i default).tube_score := by
    rw [e1]
    show 0 ≤ (cells.getD i default).tube_score + _
    rw [h0i.1, zero_add]
    apply List.sum_nonneg
    intro x hx
    obtain ⟨t, ht, rfl⟩ := List.mem_map.mp hx
    exact tubeInfluence_nonneg config _ t (hu t ht)
  have rawB_nonneg : 0 ≤ (c2.getD i default).bus_score := by
    rw [e2]
    show 0 ≤ (c1.getD i default).bus_score + _
    have : (c1.getD i default).bus_score = (cells.getD i default).bus_score := by rw [e1]
    rw [this, h0i.2.1, zero_add]
    apply List.sum_nonneg
    intro x hx
    obtain ⟨b, hbm, rfl⟩ := List.mem_map.mp hx
    exact busInfluence_nonneg config _ b (hb b hbm)
  have rawP_nonneg : 0 ≤ (c3.getD i default).premises_score := by
    rw [e3]
    show 0 ≤ (c2.getD i default).premises_score + _
    have g2 : (c2.getD i default).premises_score = (c1.getD i default).premises_score := by
      rw [e2]
    have g1 : (c1.getD i default).premises_score = (cells.getD i default).premises_score := by
      rw [e1]
    rw [g2, g1, h0i.2.2, zero_add]
    apply List.sum_nonneg
    intro x hx
    obtain ⟨p, hpm, rfl⟩ := List.mem_map.mp hx
    exact premisesInfluence_nonneg config _ p (hp p hpm)
  have rawT_le : (c1.getD i default).tube_score ≤ maxBy (fun c => c.tube_score) c1 :=
    le_maxBy _ _ _ (getD_mem_of_lt c1 i hi1 default)
  have rawB_le : (c2.getD i default).bus_score ≤ maxBy (fun c => c.bus_score) c2 :=
    le_maxBy _ _ _ (getD_mem_of_lt c2 i hi2 default)
  have rawP_le : (c3.getD i default).premises_score ≤ maxBy (fun c => c.premises_score) c3 :=
    le_maxBy _ _ _ (getD_mem_of_lt c3 i hi3 default)
  rw [eo]
  refine ⟨rfl, ⟨?_, ?_⟩, ⟨?_, ?_⟩, ⟨?_, ?_⟩⟩
  · exact normed_nonneg _ _ (ptube3 ▸ rawT_nonneg)
  · exact normed_le_one _ _ (le_trans (le_of_eq ptube3) rawT_le)
  · exact normed_nonneg _ _ (pbus3 ▸ rawB_nonneg)
  · exact normed_le_one _ _ (le_trans (le_of_eq pbus3) rawB_le)
  · exact normed_nonneg _ _ rawP_nonneg
  · exact normed_le_one _ _ rawP_le

/-- The station at the origin influences the origin cell with its full
usage weight. -/
theorem tubeInfluence_center_eval :
    tubeInfluence {} cellAtOrigin stationAtCenter = 100 := by
  have hz : Point.dist2 ⟨cellAtOrigin.center_lat, cellAtOrigin.center_lon⟩
      ⟨stationAtCenter.lat, stationAtCenter.lon⟩ = 0 := by
    norm_num [Point.dist2, cellAtOrigin, stationAtCenter]
  have hd : Point.distance_to ⟨cellAtOrigin.center_lat, cellAtOrigin.center_lon⟩
      ⟨stationAtCenter.lat, stationAtCenter.lon⟩ = 0 := by
    unfold Point.distance_to
    rw [hz]
    norm_num
  simp only [tubeInfluence, cellAtOrigin, stationAtCenter] at hd ⊢
  rw [hd, if_pos (by norm_num)]
  norm_num

/-- The station at the origin influences the cell a quarter-radius away
with a quarter of its usage weight. -/
theorem tubeInfluence_quarter_eval :
    tubeInfluence {} cellQuarter stationAtCenter = 25 := by
  have hz : Point.dist2 ⟨cellQuarter.center_lat, cellQuarter.center_lon⟩
      ⟨stationAtCenter.lat, stationAtCenter.lon⟩ = 1/160000 := by
    norm_num [Point.dist2, cellQuarter, stationAtCenter]
  have hd : Point.distance_to ⟨cellQuarter.center_lat, cellQuarter.center_lon⟩
      ⟨stationAtCenter.lat, stationAtCenter.lon⟩ = 1/400 := by
    unfold Point.distance_to
    rw [hz, show (((1/160000 : ℚ)) : ℝ) = (1/400 : ℝ) ^ 2 by push_cast; norm_num]
    exact Real.sqrt_sq (by norm_num)
  simp only [tubeInfluence, cellQuarter, stationAtCenter] at hd ⊢
  rw [hd, if_pos (by norm_num)]
  norm_num

/-- C3 (counterexample): the source does not min-max normalize.  With two
cells — one at a tube station of weight 100, one half a radius away (raw
tube scores 100 and 25, so the run's minimum raw score is 25, not 0) —
the second cell's composite score under the code (`0.45 * 25/100 =
0.1125`) differs from the spec's formula `(raw - min)/(max - min)`
(which gives `0.45 * (25-25)/(100-25) = 0`). -/
theorem min_max_normalization_cex :
    ((calculate_footfall_scores [cellAtOrigin, cellQuarter] [stationAtCenter] [] [] {}).getD 1
          default).footfall_score ≠
      ((({} : Config).TUBE_WEIGHT : ℝ) *
          specMinMaxNorm
            ((calculate_footfall_scores [cellAtOrigin, cellQuarter] [stationAtCenter] [] [] {}).map
              (fun c => c.tube_score))
            (((calculate_footfall_scores [cellAtOrigin, cellQuarter] [stationAtCenter] [] [] {}).getD 1
                default).tube_score) +
        (({} : Config).BUS_WEIGHT : ℝ) *
          specMinMaxNorm
            ((calculate_footfall_scores [cellAtOrigin, cellQuarter] [stationAtCenter] [] [] {}).map
              (fun c => c.bus_score))
            (((calculate_footfall_scores [cellAtOrigin, cellQuarter] [stationAtCenter] [] [] {}).getD 1
                default).bus_score) +
        (({} : Config).PREMISES_WEIGHT : ℝ) *
          specMinMaxNorm
            ((calculate_footfall_scores [cellAtOrigin, cellQuarter] [stationAtCenter] [] [] {}).map
              (fun c => c.premises_score))
            (((calculate_footfall_scores [cellAtOrigin, cellQuarter] [stationAtCenter] [] [] {}).getD 1
                default).premises_score)) := by
  have e1 := tubeInfluence_center_eval
  have e2 := tubeInfluence_quarter_eval
  simp only [calculate_footfall_scores, addTubeScores, addBusScores, addPremisesScores,
    maxBy, List.map, List.foldl, e1, e2, zero_add, List.getD]
  norm_num [normed, specMinMaxNorm, max_def, min_def, cellAtOrigin, cellQuarter]

/-- Witness for `footfall_composite`: one cell and no POIs at all — every
raw score is 0, every maximum is 0, every normalized component is 0, and
the composite footfall score is 0. -/
theorem footfall_composite_witness :
    ((calculate_footfall_scores [cellAtOrigin] [] [] [] {}).getD 0 default).footfall_score = 0 := by
  have h := (footfall_composite [cellAtOrigin] [] [] [] {}
    (by intro t ht; simp at ht)
    (by intro b hb; simp at hb)
    (by intro p hp; simp at hp)
    (by
      intro c hc
      simp only [List.mem_singleton] at hc
      subst hc
      exact ⟨rfl, rfl, rfl⟩)
    0 (by norm_num)).1
  rw [h]
  simp only [calculate_footfall_scores, addTubeScores, addBusScores, addPremisesScores,
    maxBy, List.map, List.foldl, List.getD]
  norm_num [normed, cellAtOrigin]

theorem scoreRank_of_le_of_lt {p q : ℕ × GridCell}
    (hle : p.2.footfall_score ≤ q.2.footfall_score) (hidx : p.1 < q.1) :
    scoreRank p q := by
  rcases lt_or_eq_of_le hle with h | h
  · exact Or.inl h
  · exact Or.inr ⟨h, hidx⟩

theorem scoreRank_le {p q : ℕ × GridCell} (h : scoreRank p q) :
    p.2.footfall_score ≤ q.2.footfall_score := by
  rcases h with h | ⟨h, _⟩
  · exact h.le
  · exact h.le

/-- Inserting an element whose original position precedes everything
already present preserves the stable-sort order. -/
theorem pairwise_orderedInsert (x : ℕ × GridCell) (l : List (ℕ × GridCell))
    (hidx : ∀ y ∈ l, x.1 < y.1) (hl : List.Pairwise scoreRank l) :
    List.Pairwise scoreRank (List.orderedInsert scoreLE x l) := by
  induction l with
  | nil => simp
  | cons y ys ih =>
    by_cases h : scoreLE x y
    · rw [List.orderedInsert_of_le _ _ h]
      refine List.pairwise_cons.mpr ⟨?_, hl⟩
      intro z hz
      have hxz : x.2.footfall_score ≤ z.2.footfall_score := by
        rcases List.mem_cons.mp hz with rfl | hz2
        · exact h
        · exact le_trans h (scoreRank_le ((List.pairwise_cons.mp hl).1 z hz2))
      exact scoreRank_of_le_of_lt hxz (hidx z hz)
    · simp only [List.orderedInsert, if_neg h]
      refine List.pairwise_cons.mpr ⟨?_, ?_⟩
      · intro z hz
        rcases (List.mem_orderedInsert scoreLE).mp hz with rfl | hz2
        · exact Or.inl (not_le.mp h)
        · exact (List.pairwise_cons.mp hl).1 z hz2
      · exact ih (fun z hz => hidx z (List.mem_cons_of_mem y hz))
          (List.pairwise_cons.mp hl).2

/-- Insertion sort of a position-increasing list is ordered by score with
ties in original-position order (stability). -/
theorem pairwise_insertionSort (l : List (ℕ × GridCell))
    (h : List.Pairwise (fun p q => p.1 < q.1) l) :
    List.Pairwise scoreRank (List.insertionSort scoreLE l) := by
  induction l with
  | nil => simp
  | cons x xs ih =>
    simp only [List.insertionSort]
    apply pairwise_orderedInsert
    · intro y hy
      exact (List.pairwise_cons.mp h).1 y
        ((List.perm_insertionSort scoreLE xs).mem_iff.mp hy)
    · exact ih (List.pairwise_cons.mp h).2

theorem enum_pairwise_fst (cells : List GridCell) :
    List.Pairwise (fun p q : ℕ × GridCell => p.1 < q.1) cells.enum := by
  have h := List.pairwise_lt_range cells.length
  rw [← List.enum_map_fst cells] at h
  exact List.pairwise_map.mp h

theorem sortedEnum_perm (cells : List GridCell) :
    (sortedEnum cells).Perm cells.enum :=
  List.perm_insertionSort _ _

theorem sortedEnum_pairwise (cells : List GridCell) :
    List.Pairwise scoreRank (sortedEnum cells) :=
  pairwise_insertionSort _ (enum_pairwise_fst cells)

theorem sortedEnum_length (cells : List GridCell) :
    (sortedEnum cells).length = cells.length := by
  rw [(sortedEnum_perm cells).length_eq, List.enum_length]

theorem sortedEnum_fst_nodup (cells : List GridCell) :
    ((sortedEnum cells).map Prod.fst).Nodup := by
  have h : ((cells.enum).map Prod.fst).Nodup := by
    rw [List.enum_map_fst]
    exact List.nodup_range _
  exact ((sortedEnum_perm cells).map Prod.fst).nodup_iff.mpr h

theorem scoreRank_antisymm (a b : ℕ × GridCell) (h1 : scoreRank a b)
    (h2 : scoreRank b a) : a = b := by
  exfalso
  rcases h1 with h1 | ⟨e1, i1⟩ <;> rcases h2 with h2 | ⟨e2, i2⟩
  · exact lt_asymm h1 h2
  · exact absurd (e2 ▸ h1) (lt_irrefl _)
  · exact absurd (e1 ▸ h2) (lt_irrefl _)
  · exact lt_asymm i1 i2

/-- The stable sort order is deterministic: any permutation of the tagged
cells in the stable order equals `sortedEnum`. -/
theorem sortedEnum_unique (cells : List GridCell) (l : List (ℕ × GridCell))
    (hp : l.Perm cells.enum) (hs : List.Pairwise scoreRank l) :
    l = sortedEnum cells := by
  haveI : IsAntisymm (ℕ × GridCell) scoreRank := ⟨scoreRank_antisymm⟩
  exact List.eq_of_perm_of_sorted (hp.trans (sortedEnum_perm cells).symm) hs
    (sortedEnum_pairwise cells)

theorem rankOf_lt (cells : List GridCell) (j : ℕ) (hj : j < cells.length) :
    rankOf cells j < (sortedEnum cells).length := by
  apply List.findIdx_lt_length_of_exists
  refine ⟨(j, cells[j]), ?_, by simp⟩
  apply (sortedEnum_perm cells).mem_iff.mpr
  rw [← List.getElem_enum cells j (by simpa [List.enum_length] using hj)]
  exact List.getElem_mem _

theorem rankOf_fst (cells : List GridCell) (j : ℕ) (hj : j < cells.length) :
    ((sortedEnum cells).getD (rankOf cells j) default).1 = j := by
  have hlt : rankOf cells j < (sortedEnum cells).length := rankOf_lt cells j hj
  have h := (List.findIdx_eq (p := fun p : ℕ × GridCell => p.1 == j) hlt).mp rfl
  rw [List.getD_eq_getElem?_getD, List.getElem?_eq_getElem hlt, Option.getD_some]
  exact beq_iff_eq.mp h.1

theorem rankOf_eq_of_getD (cells : List GridCell) (r j : ℕ) (c : GridCell)
    (hr : r < (sortedEnum cells).length)
    (hg : (sortedEnum cells).getD r default = (j, c)) : rankOf cells j = r := by
  have hge : (sortedEnum cells)[r] = (j, c) := by
    rw [← hg, List.getD_eq_getElem?_getD, List.getElem?_eq_getElem hr, Option.getD_some]
  unfold rankOf
  rw [List.findIdx_eq hr]
  refine ⟨by rw [hge]; simp, ?_⟩
  intro k hk
  by_contra hcon
  simp only [Bool.not_eq_false, beq_iff_eq] at hcon
  have hkl : k < (sortedEnum cells).length := lt_trans hk hr
  have hnd := sortedEnum_fst_nodup cells
  have hkr : k = r := by
    have hkm : k < ((sortedEnum cells).map Prod.fst).length := by simpa using hkl
    have hrm : r < ((sortedEnum cells).map Prod.fst).length := by simpa using hr
    have hmk : ((sortedEnum cells).map Prod.fst)[k] =
        ((sortedEnum cells).map Prod.fst)[r] := by
      simp only [List.getElem_map]
      rw [hge, hcon]
    exact (hnd.getElem_inj_iff).mp hmk
  omega

theorem rankOf_inj (cells : List GridCell) (j1 j2 : ℕ)
    (h1 : j1 < cells.length) (h2 : j2 < cells.length)
    (he : rankOf cells j1 = rankOf cells j2) : j1 = j2 := by
  have e1 := rankOf_fst cells j1 h1
  have e2 := rankOf_fst cells j2 h2
  rw [he] at e1
  rw [e2] at e1
  exact e1.symm

/-- C2: `categorize_cells` stably sorts the cells by composite
`footfall_score` ascending (ties keep their original order, realized as
the strict `scoreRank` order on position-tagged cells, and the resulting
order is unique, hence deterministic), and the cell found at 0-based
sorted position `r` of `n` cells receives footfall category
`min(floor((r/n)*K), K-1)`. -/
theorem categorize_spec (cells : List GridCell) (config : Config) :
    ((sortedEnum cells).map Prod.snd).Perm cells ∧
    List.Pairwise scoreRank (sortedEnum cells) ∧
    (∀ l : List (ℕ × GridCell), l.Perm cells.enum →
      List.Pairwise scoreRank l → l = sortedEnum cells) ∧
    (∀ r j c, r < cells.length → (sortedEnum cells).getD r default = (j, c) →
      ((categorize_cells cells config).getD j default).footfall_category =
        min (r * config.N_FOOTFALL_CATEGORIES / cells.length)
          (config.N_FOOTFALL_CATEGORIES - 1)) := by
  refine ⟨?_, sortedEnum_pairwise cells, sortedEnum_unique cells, ?_⟩
  · have h := (sortedEnum_perm cells).map Prod.snd
    rwa [List.enum_map_snd] at h
  · intro r j c hr hg
    have hr2 : r < (sortedEnum cells).length := by rwa [sortedEnum_length]
    have hmem : (j, c) ∈ cells.enum :=
      (sortedEnum_perm cells).mem_iff.mp (hg ▸ getD_mem_of_lt _ _ hr2 _)
    have hjn : j < cells.length := by
      have hj2 : j ∈ (cells.enum.map Prod.fst) := List.mem_map_of_mem Prod.fst hmem
      rw [List.enum_map_fst] at hj2
      exact List.mem_range.mp hj2
    have hrank : rankOf cells j = r := rankOf_eq_of_getD cells r j c hr2 hg
    unfold categorize_cells
    rw [getD_map _ _ _ (by simpa [List.enum_length] using hjn) _ default]
    have he : cells.enum.getD j default = (j, cells[j]) := by
      rw [List.getD_eq_getElem?_getD,
        List.getElem?_eq_getElem (by simpa [List.enum_length] using hjn),
        Option.getD_some, List.getElem_enum]
    rw [he]
    dsimp only
    rw [hrank]

/-- Witness for `categorize_spec`: two cells with tied (zero) scores —
the stable sort keeps them in original order, and the first sorted cell
gets category `min(0*8/2, 7) = 0`. -/
theorem categorize_spec_witness :
    ((categorize_cells [cellAtOrigin, cellQuarter] {}).getD 0 default).footfall_category = 0 := by
  have hs : sortedEnum [cellAtOrigin, cellQuarter] =
      [(0, cellAtOrigin), (1, cellQuarter)] := by
    unfold sortedEnum
    simp only [List.enum, List.enumFrom, List.insertionSort, List.orderedInsert]
    rw [if_pos]
    show cellAtOrigin.footfall_score ≤ cellQuarter.footfall_score
    norm_num [cellAtOrigin, cellQuarter]
  have h := (categorize_spec [cellAtOrigin, cellQuarter] {}).2.2.2 0 0 cellAtOrigin
    (by norm_num) (by rw [hs]; rfl)
  rw [h]
  norm_num

theorem div_eq_iff_between (x n c : ℕ) (hn : 0 < n) :
    x / n = c ↔ c * n ≤ x ∧ x < (c + 1) * n := by
  constructor
  · intro h
    refine ⟨(Nat.le_div_iff_mul_le hn).mp h.ge, ?_⟩
    exact (Nat.div_lt_iff_lt_mul hn).mp (by omega)
  · intro h
    have hc1 : c ≤ x / n := (Nat.le_div_iff_mul_le hn).mpr h.1
    have hc2 : x / n < c + 1 := (Nat.div_lt_iff_lt_mul hn).mpr h.2
    omega

theorem ceil_le_iff (a K r : ℕ) (hK : 0 < K) :
    (a + K - 1) / K ≤ r ↔ a ≤ r * K := by
  have h1 : ((a + K - 1) / K ≤ r) ↔ ((a + K - 1) / K < r + 1) := by omega
  rw [h1, Nat.div_lt_iff_lt_mul hK]
  have h2 : (r + 1) * K = r * K + K := by ring
  rw [h2]
  omega

theorem lt_ceil_iff (a K r : ℕ) (hK : 0 < K) :
    r < (a + K - 1) / K ↔ r * K < a := by
  constructor
  · intro h
    by_contra hc
    push_neg at hc
    exact absurd ((ceil_le_iff a K r hK).mpr hc) (by omega)
  · intro h
    by_contra hc
    push_neg at hc
    exact absurd ((ceil_le_iff a K r hK).mp hc) (by omega)

/-- The ceiling `(n + K - 1)/K` exceeds the floor `n/K` exactly when `K`
does not divide `n`. -/
theorem ceil_cover (n K : ℕ) (hK : 0 < K) :
    (n + K - 1) / K = n / K + (if n % K = 0 then 0 else 1) := by
  have hdm := Nat.div_add_mod n K
  have hml : n % K < K := Nat.mod_lt n hK
  by_cases h : n % K = 0
  · rw [if_pos h]
    have he : n + K - 1 = K * (n / K) + (K - 1) := by omega
    rw [he, Nat.mul_add_div hK, Nat.div_eq_of_lt (show K - 1 < K by omega)]
  · rw [if_neg h]
    have h2 : K * (n / K + 1) = K * (n / K) + K := by ring
    have he : n + K - 1 = K * (n / K + 1) + (n % K - 1) := by omega
    rw [he, Nat.mul_add_div hK, Nat.div_eq_of_lt (show n % K - 1 < K by omega)]

/-- Consecutive ceiling blocks have sizes between `⌊n/K⌋` and `⌈n/K⌉`. -/
theorem block_bounds (a n K : ℕ) (hK : 0 < K) :
    n / K ≤ (a + n + K - 1) / K - (a + K - 1) / K ∧
      (a + n + K - 1) / K - (a + K - 1) / K ≤ (n + K - 1) / K := by
  have h1 : a + n + K - 1 = a + K - 1 + n := by omega
  rw [h1]
  have hadd := Nat.add_div (a := a + K - 1) (b := n) (c := K) hK
  have hceil := ceil_cover n K hK
  have hbm : (a + K - 1) % K < K := Nat.mod_lt _ hK
  have hnm : n % K < K := Nat.mod_lt n hK
  obtain ⟨A, hA⟩ : ∃ A, (a + K - 1 + n) / K = A := ⟨_, rfl⟩
  obtain ⟨B, hB⟩ : ∃ B, (a + K - 1) / K = B := ⟨_, rfl⟩
  obtain ⟨C, hC⟩ : ∃ C, n / K = C := ⟨_, rfl⟩
  obtain ⟨D, hD⟩ : ∃ D, (n + K - 1) / K = D := ⟨_, rfl⟩
  obtain ⟨M, hM⟩ : ∃ M, (a + K - 1) % K = M := ⟨_, rfl⟩
  obtain ⟨S, hS⟩ : ∃ S, n % K = S := ⟨_, rfl⟩
  rw [hA, hB, hC, hM, hS] at hadd
  rw [hD, hC, hS] at hceil
  rw [hM] at hbm
  rw [hS] at hnm
  rw [hA, hB, hC, hD]
  by_cases hz : S = 0
  · rw [if_pos hz] at hceil
    have hno : ¬ (K ≤ M + S) := by omega
    rw [if_neg hno] at hadd
    omega
  · rw [if_neg hz] at hceil
    by_cases h2 : K ≤ M + S
    · rw [if_pos h2] at hadd
      omega
    · rw [if_neg h2] at hadd
      omega

/-- A function mapping `range n` into itself injectively permutes it. -/
theorem perm_range_of_inj (f : ℕ → ℕ) (n : ℕ)
    (hlt : ∀ i < n, f i < n)
    (hinj : ∀ i < n, ∀ j < n, f i = f j → i = j) :
    ((List.range n).map f).Perm (List.range n) := by
  rw [← Multiset.coe_eq_coe]
  have hinj2 : Set.InjOn f (Finset.range n) := by
    intro i hi j hj hf
    exact hinj i (by simpa using hi) j (by simpa using hj) hf
  have himg : Finset.image f (Finset.range n) = Finset.range n := by
    apply Finset.eq_of_subset_of_card_le
    · intro x hx
      obtain ⟨i, hi, rfl⟩ := Finset.mem_image.mp hx
      exact Finset.mem_range.mpr (hlt i (Finset.mem_range.mp hi))
    · rw [Finset.card_image_of_injOn hinj2, Finset.card_range]
  have hval := congrArg Finset.val himg
  rw [Finset.image_val_of_injOn hinj2, Finset.range_val, ← Multiset.coe_range,
    Multiset.map_coe] at hval
  exact hval

/-- The multiset of categories assigned by `categorize_cells` is the
multiset of the rank formula applied to the ranks `0, ..., n-1`. -/
theorem categorize_categories_perm (cells : List GridCell) (config : Config) :
    ((categorize_cells cells config).map (fun c => c.footfall_category)).Perm
      ((List.range cells.length).map
        (fun r => min (r * config.N_FOOTFALL_CATEGORIES / cells.length)
          (config.N_FOOTFALL_CATEGORIES - 1))) := by
  unfold categorize_cells
  rw [List.map_map]
  have he : (cells.enum.map
      (fun jc : ℕ × GridCell =>
        min (rankOf cells jc.1 * config.N_FOOTFALL_CATEGORIES / cells.length)
          (config.N_FOOTFALL_CATEGORIES - 1))) =
      ((List.range cells.length).map
        (fun j => min (rankOf cells j * config.N_FOOTFALL_CATEGORIES / cells.length)
          (config.N_FOOTFALL_CATEGORIES - 1))) := by
    rw [← List.enum_map_fst cells, List.map_map]
    rfl
  have hcomp : ((fun c : GridCell => c.footfall_category) ∘
      (fun jc : ℕ × GridCell =>
        let category := min (rankOf cells jc.1 * config.N_FOOTFALL_CATEGORIES / cells.length)
          (config.N_FOOTFALL_CATEGORIES - 1)
        let c := jc.2
        let people := estimate_people_per_hour c.footfall_score category
        { c with footfall_category := category,
                 footfall_category_name := category_names.getD category "",
                 estimated_people_per_hour := people,
                 estimated_bin_fill_rate := estimate_bin_fill_rate people })) =
      (fun jc : ℕ × GridCell =>
        min (rankOf cells jc.1 * config.N_FOOTFALL_CATEGORIES / cells.length)
          (config.N_FOOTFALL_CATEGORIES - 1)) := rfl
  rw [hcomp, he]
  have hperm := (perm_range_of_inj (rankOf cells) cells.length
    (fun i hi => by
      have := rankOf_lt cells i hi
      rwa [sortedEnum_length] at this)
    (fun i hi j hj hf => rankOf_inj cells i j hi hj hf)).map
    (fun r => min (r * config.N_FOOTFALL_CATEGORIES / cells.length)
      (config.N_FOOTFALL_CATEGORIES - 1))
  rw [List.map_map] at hperm
  exact hperm

/-- C8: with `K > 0` categories and `n > 0` cells, every assigned
category lies in `[0, K)`, and the per-category populations lie between
`⌊n/K⌋` and `⌈n/K⌉`, so any two category populations differ by at most
the rounding slack of `n / K` (`⌈n/K⌉ - ⌊n/K⌋`, which is at most 1). -/
theorem categorize_balance (cells : List GridCell) (config : Config)
    (hn : cells ≠ []) (hK : 0 < config.N_FOOTFALL_CATEGORIES) :
    (∀ c ∈ categorize_cells cells config,
      c.footfall_category < config.N_FOOTFALL_CATEGORIES) ∧
    (∀ cat, cat < config.N_FOOTFALL_CATEGORIES →
      cells.length / config.N_FOOTFALL_CATEGORIES ≤
          categoryPopulation (categorize_cells cells config) cat ∧
        categoryPopulation (categorize_cells cells config) cat ≤
          (cells.length + config.N_FOOTFALL_CATEGORIES - 1) /
            config.N_FOOTFALL_CATEGORIES) ∧
    (∀ c1, c1 < config.N_FOOTFALL_CATEGORIES →
      ∀ c2, c2 < config.N_FOOTFALL_CATEGORIES →
      categoryPopulation (categorize_cells cells config) c1 ≤
        categoryPopulation (categorize_cells cells config) c2 +
          ((cells.length + config.N_FOOTFALL_CATEGORIES - 1) /
              config.N_FOOTFALL_CATEGORIES -
            cells.length / config.N_FOOTFALL_CATEGORIES)) := by
  set n := cells.length with hnlen
  set K := config.N_FOOTFALL_CATEGORIES with hKdef
  have hn0 : 0 < n := by
    rw [hnlen]
    exact List.length_pos.mpr hn
  have hbound : ∀ cat, cat < K →
      categoryPopulation (categorize_cells cells config) cat =
        ((cat + 1) * n + K - 1) / K - (cat * n + K - 1) / K := by
    intro cat hcat
    unfold categoryPopulation
    rw [← List.countP_eq_length_filter]
    have h1 : List.countP (fun c => c.footfall_category == cat)
        (categorize_cells cells config) =
        List.countP (fun x => x == cat)
          ((categorize_cells cells config).map (fun c => c.footfall_category)) := by
      rw [List.countP_map]
      rfl
    rw [h1, (categorize_categories_perm cells config).countP_eq,
      List.countP_map]
    have h2 : List.countP
        ((fun x => x == cat) ∘ (fun r => min (r * K / n) (K - 1)))
        (List.range n) =
        List.countP (fun r => decide ((cat * n + K - 1) / K ≤ r ∧
          r < ((cat + 1) * n + K - 1) / K)) (List.range n) := by
      apply List.countP_congr
      intro r hr
      have hrn : r < n := List.mem_range.mp hr
      have hclamp : min (r * K / n) (K - 1) = r * K / n := by
        apply min_eq_left
        have hlt : r * K / n < K := by
          rw [Nat.div_lt_iff_lt_mul hn0]
          calc r * K < n * K := (Nat.mul_lt_mul_right hK).mpr hrn
            _ = K * n := Nat.mul_comm n K
        omega
      simp only [Function.comp_apply, hclamp, beq_iff_eq, decide_eq_true_eq]
      rw [div_eq_iff_between _ _ _ hn0, ceil_le_iff _ _ _ hK]
      constructor
      · intro h
        exact ⟨h.1, (lt_ceil_iff _ _ _ hK).mpr h.2⟩
      · intro h
        exact ⟨h.1, (lt_ceil_iff _ _ _ hK).mp h.2⟩
    rw [h2, List.countP_eq_length_filter]
    have h3 : ((List.range n).filter (fun r => decide ((cat * n + K - 1) / K ≤ r ∧
        r < ((cat + 1) * n + K - 1) / K))).length =
        ((Finset.range n).filter (fun r => (cat * n + K - 1) / K ≤ r ∧
          r < ((cat + 1) * n + K - 1) / K)).card := by
      rw [Finset.card, Finset.filter_val, Finset.range_val, ← Multiset.coe_range,
        Multiset.filter_coe, Multiset.coe_card]
    rw [h3]
    have hhi : ((cat + 1) * n + K - 1) / K ≤ n := by
      have hle : (cat + 1) * n ≤ K * n := Nat.mul_le_mul_right n hcat
      have h4 : (K * n + K - 1) / K = n := by
        have h5 : K * n + K - 1 = K * n + (K - 1) := by omega
        rw [h5, Nat.mul_add_div hK, Nat.div_eq_of_lt (show K - 1 < K by omega)]
        omega
      calc ((cat + 1) * n + K - 1) / K ≤ (K * n + K - 1) / K :=
            Nat.div_le_div_right (by omega)
        _ = n := h4
    have h6 : (Finset.range n).filter (fun r => (cat * n + K - 1) / K ≤ r ∧
        r < ((cat + 1) * n + K - 1) / K) =
        Finset.Ico ((cat * n + K - 1) / K) (((cat + 1) * n + K - 1) / K) := by
      apply Finset.ext
      intro r
      simp only [Finset.mem_filter, Finset.mem_range, Finset.mem_Ico]
      omega
    rw [h6, Nat.card_Ico]
  refine ⟨?_, ?_, ?_⟩
  · intro c hc
    unfold categorize_cells at hc
    obtain ⟨jc, _, rfl⟩ := List.mem_map.mp hc
    have : min (rankOf cells jc.1 * K / n) (K - 1) ≤ K - 1 := min_le_right _ _
    simp only []
    omega
  · intro cat hcat
    rw [hbound cat hcat]
    have hb := block_bounds (cat * n) n K hK
    have he : (cat + 1) * n = cat * n + n := by ring
    rw [he]
    exact hb
  · intro c1 hc1 c2 hc2
    rw [hbound c1 hc1, hbound c2 hc2]
    have e1 : (c1 + 1) * n = c1 * n + n := by ring
    have e2 : (c2 + 1) * n = c2 * n + n := by ring
    rw [e1, e2]
    have hb3 := block_bounds (c1 * n) n K hK
    have hb4 := block_bounds (c2 * n) n K hK
    obtain ⟨A1, hA1⟩ : ∃ A, (c1 * n + n + K - 1) / K = A := ⟨_, rfl⟩
    obtain ⟨B1, hB1⟩ : ∃ B, (c1 * n + K - 1) / K = B := ⟨_, rfl⟩
    obtain ⟨A2, hA2⟩ : ∃ A, (c2 * n + n + K - 1) / K = A := ⟨_, rfl⟩
    obtain ⟨B2, hB2⟩ : ∃ B, (c2 * n + K - 1) / K = B := ⟨_, rfl⟩
    obtain ⟨F, hF⟩ : ∃ F, n / K = F := ⟨_, rfl⟩
    obtain ⟨G, hG⟩ : ∃ G, (n + K - 1) / K = G := ⟨_, rfl⟩
    rw [hA1, hB1, hF, hG] at hb3
    rw [hA2, hB2, hF, hG] at hb4
    rw [hA1, hB1, hA2, hB2, hF, hG]
    omega

/-- Witness for `categorize_balance`: two tied cells, eight categories —
categories are 0 and 4, population of each category is at most
`⌈2/8⌉ = 1` and at least `⌊2/8⌋ = 0`, and populations differ by at most
1. -/
theorem categorize_balance_witness :
    ((categorize_cells [cellAtOrigin, cellQuarter] {}).getD 1 default).footfall_category < 8 := by
  have h := (categorize_balance [cellAtOrigin, cellQuarter] {} (by simp) (by norm_num)).1
  apply h
  exact getD_mem_of_lt _ 1 (by simp [categorize_cells]) _

theorem applySel_length (bins : List BinLocation) (idxs : List ℕ) (r : ℕ) :
    (applySel bins idxs r).length = bins.length := by
  induction idxs generalizing bins r with
  | nil => rfl
  | cons i rest ih => simp [applySel, ih]

theorem getD_set_ne {α : Type} [Inhabited α] (l : List α) (i j : ℕ) (v : α)
    (h : i ≠ j) : (l.set i v).getD j default = l.getD j default := by
  rw [List.getD_eq_getElem?_getD, List.getD_eq_getElem?_getD,
    List.getElem?_set_ne h]

theorem getD_set_self {α : Type} [Inhabited α] (l : List α) (i : ℕ) (v : α)
    (h : i < l.length) : (l.set i v).getD i default = v := by
  rw [List.getD_eq_getElem?_getD, List.getElem?_set_self h]
  rfl

/-- `applySel` leaves bins at unselected positions untouched. -/
theorem applySel_frame (bins : List BinLocation) (idxs : List ℕ) (r j : ℕ)
    (h : j ∉ idxs) :
    (applySel bins idxs r).getD j default = bins.getD j default := by
  induction idxs generalizing bins r with
  | nil => rfl
  | cons i rest ih =>
    simp only [applySel]
    rw [ih _ _ (fun hc => h (List.mem_cons_of_mem i hc))]
    exact getD_set_ne _ _ _ _ (fun hc => h (hc ▸ List.mem_cons_self i rest))

/-- The bin at the `p`-th selected position gets `selected_for_sensor`
and rank `r + p`. -/
theorem applySel_getD_sel (bins : List BinLocation) (idxs : List ℕ) (r : ℕ)
    (hnd : idxs.Nodup) (hlt : ∀ i ∈ idxs, i < bins.length) (p : ℕ)
    (hp : p < idxs.length) :
    (applySel bins idxs r).getD (idxs.getD p 0) default =
      { bins.getD (idxs.getD p 0) default with
        selected_for_sensor := true, selection_rank := r + p } := by
  induction idxs generalizing bins r p with
  | nil => simp at hp
  | cons i rest ih =>
    rcases List.nodup_cons.mp hnd with ⟨hni, hndr⟩
    cases p with
    | zero =>
      simp only [applySel, List.getD_cons_zero]
      rw [applySel_frame _ _ _ i hni,
        getD_set_self _ _ _ (hlt i (List.mem_cons_self i rest))]
      simp [selBin]
    | succ p2 =>
      have hp2 : p2 < rest.length := by simpa using hp
      simp only [applySel, List.getD_cons_succ]
      rw [ih _ _ hndr (fun x hx => by
        rw [List.length_set]
        exact hlt x (List.mem_cons_of_mem i hx)) p2 hp2]
      have hmem : rest.getD p2 0 ∈ rest := getD_mem_of_lt rest p2 hp2 0
      rw [getD_set_ne _ _ _ _ (fun hc => hni (by rw [hc]; exact hmem))]
      have : r + 1 + p2 = r + (p2 + 1) := by omega
      rw [this]

/-- `applySel` changes only the two selection fields, and only ever sets
the flag to `true`. -/
theorem applySel_core (bins : List BinLocation) (idxs : List ℕ) (r j : ℕ) :
    (applySel bins idxs r).getD j default = bins.getD j default ∨
      (applySel bins idxs r).getD j default =
        { bins.getD j default with
          selected_for_sensor := true,
          selection_rank := ((applySel bins idxs r).getD j default).selection_rank } := by
  induction idxs generalizing bins r with
  | nil => exact Or.inl rfl
  | cons i rest ih =>
    simp only [applySel]
    by_cases hij : i = j
    · subst hij
      by_cases hlen : i < bins.length
      · rcases ih (bins.set i (selBin bins i r)) (r + 1) with h | h
        · right
          rw [h, getD_set_self _ _ _ hlen]
          simp [selBin]
        · right
          rw [h, getD_set_self _ _ _ hlen]
          simp [selBin]
      · rw [List.set_eq_of_length_le (by omega)]
        exact ih bins (r + 1)
    · rcases ih (bins.set i (selBin bins i r)) (r + 1) with h | h
      · left
        rw [h, getD_set_ne _ _ _ _ hij]
      · right
        rw [h, getD_set_ne _ _ _ _ hij]

/-- C10: `optimize_sensor_placement` neither adds nor removes bins, and
for every position in the list it either leaves the bin entirely
unchanged or changes exactly the two selection fields
(`selected_for_sensor`, `selection_rank`), setting the flag to `true`;
in particular any bin not marked selected in the output is byte-for-byte
the input bin (so a bin that came in with `selected_for_sensor = False`
and `selection_rank = 0` keeps those values). -/
theorem optimize_frame (bins : List BinLocation) (n k : ℕ) :
    (optimize_sensor_placement bins n k).1.length = bins.length ∧
    (∀ j, (optimize_sensor_placement bins n k).1.getD j default = bins.getD j default ∨
      (optimize_sensor_placement bins n k).1.getD j default =
        { bins.getD j default with
          selected_for_sensor := true,
          selection_rank :=
            ((optimize_sensor_placement bins n k).1.getD j default).selection_rank }) ∧
    (∀ j, ((optimize_sensor_placement bins n k).1.getD j default).selected_for_sensor = false →
      (optimize_sensor_placement bins n k).1.getD j default = bins.getD j default) := by
  have hout : ∃ idxs, (optimize_sensor_placement bins n k).1 = applySel bins idxs 1 := by
    unfold optimize_sensor_placement
    split_ifs <;> exact ⟨_, rfl⟩
  obtain ⟨idxs, hidx⟩ := hout
  rw [hidx]
  refine ⟨applySel_length _ _ _, fun j => applySel_core _ _ _ _, ?_⟩
  intro j hsel
  rcases applySel_core bins idxs 1 j with h | h
  · exact h
  · rw [h] at hsel
    simp at hsel

/-- Witness for `optimize_frame`: a single unassigned bin is returned
unchanged (it is never selected). -/
theorem optimize_frame_witness :
    (optimize_sensor_placement [{ bin_id := "B9", lat := 0, lon := 0 }] 5 8).1.getD 0 default =
      { bin_id := "B9", lat := 0, lon := 0 } := by
  apply (optimize_frame [{ bin_id := "B9", lat := 0, lon := 0 }] 5 8).2.2 0
  have hidx : assignedIdx [({ bin_id := "B9", lat := 0, lon := 0 } : BinLocation)] = [] := rfl
  unfold optimize_sensor_placement
  rw [hidx]
  rw [if_pos (by norm_num)]
  rfl

theorem assignedIdx_lt (bins : List BinLocation) :
    ∀ i ∈ assignedIdx bins, i < bins.length := by
  intro i hi
  have h := (List.mem_filter.mp hi).1
  exact List.mem_range.mp h

theorem assignedIdx_cell (bins : List BinLocation) :
    ∀ i ∈ assignedIdx bins, (bins.getD i default).cell_id ≠ "" := by
  intro i hi
  have h := (List.mem_filter.mp hi).2
  simpa using h

theorem assignedIdx_nodup (bins : List BinLocation) :
    (assignedIdx bins).Nodup :=
  (List.nodup_range _).filter _

theorem binCategories_nodup (bins : List BinLocation) :
    (binCategories bins).Nodup :=
  (List.perm_insertionSort _ _).nodup_iff.mpr (List.nodup_dedup _)

theorem mem_binCategories (bins : List BinLocation) (c : ℕ) :
    c ∈ binCategories bins ↔
      ∃ i ∈ assignedIdx bins, (bins.getD i default).footfall_category = c := by
  unfold binCategories
  rw [(List.perm_insertionSort _ _).mem_iff, List.mem_dedup, List.mem_map]

theorem catCount_eq_count (bins : List BinLocation) (c : ℕ) :
    catCount bins c = List.count c
      ((assignedIdx bins).map (fun i => (bins.getD i default).footfall_category)) := by
  unfold catCount
  rw [List.count_eq_countP, List.countP_map, ← List.countP_eq_length_filter]
  rfl

theorem catCount_pos (bins : List BinLocation) (c : ℕ)
    (h : c ∈ binCategories bins) : 0 < catCount bins c := by
  obtain ⟨i, hi, hc⟩ := (mem_binCategories bins c).mp h
  unfold catCount
  rw [List.length_pos]
  intro hnil
  have : i ∈ (assignedIdx bins).filter
      (fun i => (bins.getD i default).footfall_category == c) := by
    rw [List.mem_filter]
    exact ⟨hi, by simpa using hc⟩
  rw [hnil] at this
  simp at this

/-- The per-category counts of the assigned bins partition them. -/
theorem sum_catCount (bins : List BinLocation) :
    ((binCategories bins).map (catCount bins)).sum = (assignedIdx bins).length := by
  have h1 : (binCategories bins).map (catCount bins) =
      (binCategories bins).map (fun c => List.count c
        ((assignedIdx bins).map (fun i => (bins.getD i default).footfall_category))) := by
    apply List.map_congr_left
    intro c _
    exact catCount_eq_count bins c
  rw [h1]
  unfold binCategories
  have h2 := (List.perm_insertionSort (fun a b : ℕ => a ≤ b)
    (((assignedIdx bins).map
      (fun i => (bins.getD i default).footfall_category)).dedup)).map
    (fun c => List.count c
      ((assignedIdx bins).map (fun i => (bins.getD i default).footfall_category)))
  rw [(h2.sum_eq : _)]
  rw [List.sum_map_count_dedup_eq_length, List.length_map]

theorem initialTarget_bounds (bins : List BinLocation) (n : ℕ) (c : ℕ)
    (h : c ∈ binCategories bins) :
    1 ≤ initialTarget bins n c ∧ initialTarget bins n c ≤ catCount bins c := by
  have hp := catCount_pos bins c h
  unfold initialTarget
  constructor
  · refine le_min (le_trans ?_ (le_max_right _ _)) hp
    omega
  · exact min_le_right _ _

/-- `adjustPass` only moves targets and total upward. -/
theorem adjustPass_mono (counts : ℕ → ℕ) (n : ℕ) :
    ∀ (cs : List ℕ) (t : ℕ → ℕ) (total : ℕ),
      (∀ x, t x ≤ (adjustPass counts n cs t total).1 x) ∧
        total ≤ (adjustPass counts n cs t total).2 := by
  intro cs
  induction cs with
  | nil => intro t total; exact ⟨fun x => le_refl _, le_refl _⟩
  | cons c rest ih =>
    intro t total
    by_cases hc : t c < counts c
    · by_cases hb : n ≤ total + 1
      · simp only [adjustPass, if_pos hc, if_pos hb]
        refine ⟨fun x => ?_, by omega⟩
        by_cases hx : x = c
        · simp [hx]
        · simp [hx]
      · simp only [adjustPass, if_pos hc, if_neg hb]
        rcases ih (fun x => if x = c then t c + 1 else t x) (total + 1) with ⟨h1, h2⟩
        refine ⟨fun x => le_trans ?_ (h1 x), by omega⟩
        by_cases hx : x = c
        · simp [hx]
        · simp [hx]
    · simp only [adjustPass, if_neg hc]
      exact ih t total

/-- `adjustPass` does not touch categories outside its list, and the
total grows by exactly the growth of the listed targets. -/
theorem adjustPass_sum_frame (counts : ℕ → ℕ) (n : ℕ) :
    ∀ (cs : List ℕ), cs.Nodup → ∀ (t : ℕ → ℕ) (total : ℕ),
      (∀ x, x ∉ cs → (adjustPass counts n cs t total).1 x = t x) ∧
        (adjustPass counts n cs t total).2 + (cs.map t).sum =
          total + (cs.map (adjustPass counts n cs t total).1).sum := by
  intro cs
  induction cs with
  | nil => intro _ t total; exact ⟨fun x _ => rfl, by simp [adjustPass]⟩
  | cons c rest ih =>
    intro hnd t total
    rcases List.nodup_cons.mp hnd with ⟨hni, hndr⟩
    by_cases hc : t c < counts c
    · by_cases hb : n ≤ total + 1
      · simp only [adjustPass, if_pos hc, if_pos hb]
        constructor
        · intro x hx
          have : x ≠ c := fun h => hx (h ▸ List.mem_cons_self c rest)
          simp [this]
        · simp only [List.map_cons, List.sum_cons, if_pos rfl, ite_true]
          have hrest : rest.map (fun x => if x = c then t c + 1 else t x) =
              rest.map t := by
            apply List.map_congr_left
            intro x hx
            have : x ≠ c := fun h => hni (h ▸ hx)
            simp [this]
          rw [hrest]
          omega
      · simp only [adjustPass, if_pos hc, if_neg hb]
        rcases ih hndr (fun x => if x = c then t c + 1 else t x) (total + 1)
          with ⟨h1, h2⟩
        constructor
        · intro x hx
          have hxr : x ∉ rest := fun h => hx (List.mem_cons_of_mem c h)
          have hxc : x ≠ c := fun h => hx (h ▸ List.mem_cons_self c rest)
          rw [h1 x hxr]
          simp [hxc]
        · simp only [List.map_cons, List.sum_cons]
          have hrest : rest.map (fun x => if x = c then t c + 1 else t x) =
              rest.map t := by
            apply List.map_congr_left
            intro x hx
            have : x ≠ c := fun h => hni (h ▸ hx)
            simp [this]
          rw [hrest] at h2
          have hcv : (adjustPass counts n rest
              (fun x => if x = c then t c + 1 else t x) (total + 1)).1 c =
              t c + 1 := by
            rw [h1 c hni]
            simp
          rw [hcv]
          omega
    · simp only [adjustPass, if_neg hc]
      rcases ih hndr t total with ⟨h1, h2⟩
      constructor
      · intro x hx
        exact h1 x (fun h => hx (List.mem_cons_of_mem c h))
      · simp only [List.map_cons, List.sum_cons]
        have hcv : (adjustPass counts n rest t total).1 c = t c := h1 c hni
        rw [hcv]
        omega

/-- `adjustPass` keeps every listed target within its category's
availability. -/
theorem adjustPass_le_counts (counts : ℕ → ℕ) (n : ℕ) :
    ∀ (cs : List ℕ), cs.Nodup → ∀ (t : ℕ → ℕ) (total : ℕ),
      (∀ c ∈ cs, t c ≤ counts c) →
      ∀ c ∈ cs, (adjustPass counts n cs t total).1 c ≤ counts c := by
  intro cs
  induction cs with
  | nil => intro _ t total _ c hc; simp at hc
  | cons c rest ih =>
    intro hnd t total hle x hx
    rcases List.nodup_cons.mp hnd with ⟨hni, hndr⟩
    by_cases hc : t c < counts c
    · by_cases hb : n ≤ total + 1
      · simp only [adjustPass, if_pos hc, if_pos hb]
        by_cases hxc : x = c
        · subst hxc; simp; omega
        · simp only [if_neg hxc]
          rcases List.mem_cons.mp hx with h | h
          · exact absurd h hxc
          · exact hle x (List.mem_cons_of_mem c h)
      · simp only [adjustPass, if_pos hc, if_neg hb]
        have hle2 : ∀ y ∈ rest, (fun z => if z = c then t c + 1 else t z) y ≤
            counts y := by
          intro y hy
          have : y ≠ c := fun h => hni (h ▸ hy)
          simp only [if_neg this]
          exact hle y (List.mem_cons_of_mem c hy)
        rcases List.mem_cons.mp hx with h | h
        · subst h
          rw [(adjustPass_sum_frame counts n rest hndr _ (total + 1)).1 x hni]
          simp
          omega
        · exact ih hndr _ (total + 1) hle2 x h
    · simp only [adjustPass, if_neg hc]
      have hle2 : ∀ y ∈ rest, t y ≤ counts y :=
        fun y hy => hle y (List.mem_cons_of_mem c hy)
      rcases List.mem_cons.mp hx with h | h
      · subst h
        rw [(adjustPass_sum_frame counts n rest hndr t total).1 x hni]
        exact hle x (List.mem_cons_self x rest)
      · exact ih hndr t total hle2 x h

/-- Starting strictly below `n_sensors`, a pass never pushes the total
past `n_sensors`. -/
theorem adjustPass_total_le (counts : ℕ → ℕ) (n : ℕ) :
    ∀ (cs : List ℕ) (t : ℕ → ℕ) (total : ℕ), total < n →
      (adjustPass counts n cs t total).2 ≤ n := by
  intro cs
  induction cs with
  | nil => intro t total h; exact le_of_lt h
  | cons c rest ih =>
    intro t total h
    by_cases hc : t c < counts c
    · by_cases hb : n ≤ total + 1
      · simp only [adjustPass, if_pos hc, if_pos hb]
        omega
      · simp only [adjustPass, if_pos hc, if_neg hb]
        exact ih _ (total + 1) (by omega)
    · simp only [adjustPass, if_neg hc]
      exact ih t total h

/-- A pass strictly increases the total as soon as some listed category
still has headroom. -/
theorem adjustPass_progress (counts : ℕ → ℕ) (n : ℕ) :
    ∀ (cs : List ℕ) (t : ℕ → ℕ) (total : ℕ),
      (∃ c ∈ cs, t c < counts c) →
      total < (adjustPass counts n cs t total).2 := by
  intro cs
  induction cs with
  | nil => rintro t total ⟨c, hc, _⟩; simp at hc
  | cons c rest ih =>
    rintro t total ⟨x, hx, hxlt⟩
    by_cases hc : t c < counts c
    · by_cases hb : n ≤ total + 1
      · simp only [adjustPass, if_pos hc, if_pos hb]
        omega
      · simp only [adjustPass, if_pos hc, if_neg hb]
        have := (adjustPass_mono counts n rest
          (fun z => if z = c then t c + 1 else t z) (total + 1)).2
        omega
    · simp only [adjustPass, if_neg hc]
      rcases List.mem_cons.mp hx with h | h
      · subst h; exact absurd hxlt hc
      · exact ih t total ⟨x, h, hxlt⟩

/-- If pointwise-dominated sums compare strictly, some entry compares
strictly. -/
theorem sum_lt_exists (cs : List ℕ) (f g : ℕ → ℕ)
    (hle : ∀ c ∈ cs, f c ≤ g c)
    (hlt : (cs.map f).sum < (cs.map g).sum) :
    ∃ c ∈ cs, f c < g c := by
  by_contra hno
  push_neg at hno
  have heq : cs.map f = cs.map g := by
    apply List.map_congr_left
    intro c hc
    exact le_antisymm (hle c hc) (hno c hc)
  rw [heq] at hlt
  exact lt_irrefl _ hlt

/-- The reconciliation loop, given enough fuel, stops with total exactly
`max total n_sensors`, keeps every listed target within its availability,
never lowers a target, and keeps the total equal to the sum of the listed
targets. -/
theorem reconcile_spec (counts : ℕ → ℕ) (n : ℕ) (cs : List ℕ)
    (hnd : cs.Nodup) (hn : n ≤ (cs.map counts).sum) :
    ∀ (fuel : ℕ) (t : ℕ → ℕ) (total : ℕ),
      (∀ c ∈ cs, t c ≤ counts c) →
      total = (cs.map t).sum →
      n ≤ total + fuel →
      (reconcile counts n cs fuel t total).2 = max total n ∧
        (∀ c ∈ cs, (reconcile counts n cs fuel t total).1 c ≤ counts c) ∧
        (∀ x, t x ≤ (reconcile counts n cs fuel t total).1 x) ∧
        (reconcile counts n cs fuel t total).2 =
          (cs.map (reconcile counts n cs fuel t total).1).sum := by
  intro fuel
  induction fuel with
  | zero =>
    intro t total hle hsum hf
    simp only [reconcile]
    exact ⟨by omega, hle, fun x => le_refl _, hsum⟩
  | succ fuel ih =>
    intro t total hle hsum hf
    by_cases hlt : total < n
    · simp only [reconcile, if_pos hlt]
      have hex : ∃ c ∈ cs, t c < counts c := by
        apply sum_lt_exists cs t counts hle
        rw [← hsum]
        omega
      have hprog := adjustPass_progress counts n cs t total hex
      have htle := adjustPass_total_le counts n cs t total hlt
      rcases adjustPass_sum_frame counts n cs hnd t total with ⟨_, hsum2⟩
      have hle2 := adjustPass_le_counts counts n cs hnd t total hle
      have hsum3 : (adjustPass counts n cs t total).2 =
          (cs.map (adjustPass counts n cs t total).1).sum := by omega
      rcases ih (adjustPass counts n cs t total).1
        (adjustPass counts n cs t total).2 hle2 hsum3 (by omega)
        with ⟨h1, h2, h3, h4⟩
      refine ⟨by omega, h2, fun x => le_trans ((adjustPass_mono counts n cs
        t total).1 x) (h3 x), h4⟩
    · simp only [reconcile, if_neg hlt]
      exact ⟨by omega, hle, fun x => le_refl _, hsum⟩

/-- When at least `n_sensors` bins are assigned, the reconciled targets
sum to `max initialTargetSum n_sensors`, each stays within its category's
availability, and each keeps its floor of at least 1. -/
theorem finalState_spec (bins : List BinLocation) (n : ℕ)
    (hn : n ≤ (assignedIdx bins).length) :
    (finalState bins n).2 = max (initialTargetSum bins n) n ∧
      (∀ c ∈ binCategories bins, (finalState bins n).1 c ≤ catCount bins c ∧
        1 ≤ (finalState bins n).1 c) ∧
      (finalState bins n).2 =
        ((binCategories bins).map (finalState bins n).1).sum := by
  have hnd := binCategories_nodup bins
  have hcnt : n ≤ ((binCategories bins).map (catCount bins)).sum := by
    rw [sum_catCount]; exact hn
  have hle : ∀ c ∈ binCategories bins,
      initialTarget bins n c ≤ catCount bins c :=
    fun c hc => (initialTarget_bounds bins n c hc).2
  rcases reconcile_spec (catCount bins) n (binCategories bins) hnd hcnt n
    (initialTarget bins n) (initialTargetSum bins n) hle rfl (by omega)
    with ⟨h1, h2, h3, h4⟩
  exact ⟨h1, fun c hc => ⟨h2 c hc,
    le_trans (initialTarget_bounds bins n c hc).1 (h3 c)⟩, h4⟩

theorem catIdxSorted_perm (bins : List BinLocation) (c : ℕ) :
    List.Perm (catIdxSorted bins c) ((assignedIdx bins).filter
      (fun i => (bins.getD i default).footfall_category == c)) :=
  List.perm_insertionSort _ _

theorem catIdxSorted_length (bins : List BinLocation) (c : ℕ) :
    (catIdxSorted bins c).length = catCount bins c :=
  (catIdxSorted_perm bins c).length_eq

theorem catIdxSorted_nodup (bins : List BinLocation) (c : ℕ) :
    (catIdxSorted bins c).Nodup :=
  (catIdxSorted_perm bins c).nodup_iff.mpr ((assignedIdx_nodup bins).filter _)

theorem mem_catIdxSorted (bins : List BinLocation) (c : ℕ) (i : ℕ) :
    i ∈ catIdxSorted bins c ↔
      i ∈ assignedIdx bins ∧ (bins.getD i default).footfall_category = c := by
  rw [(catIdxSorted_perm bins c).mem_iff, List.mem_filter]
  simp

theorem selectPositions_length (len t : ℕ) (h1 : 1 ≤ t) (h2 : t ≤ len) :
    (selectPositions len t).length = t := by
  have hdiv : 1 ≤ len / t := (Nat.one_le_div_iff (by omega)).mpr h2
  have hmul : len / t * t ≤ len := Nat.div_mul_le_self len t
  obtain ⟨s, hs⟩ : ∃ s, len / t = s := ⟨_, rfl⟩
  rw [hs] at hdiv hmul
  simp only [selectPositions, hs, max_eq_right hdiv]
  rw [List.length_take, List.length_map, List.length_range]
  have hts : t * s ≤ len := by
    calc t * s = s * t := Nat.mul_comm t s
    _ ≤ len := hmul
  have hle : t ≤ (len + s - 1) / s := by
    rw [Nat.le_div_iff_mul_le (by omega)]
    obtain ⟨A, hA⟩ : ∃ A, t * s = A := ⟨_, rfl⟩
    rw [hA] at hts ⊢
    omega
  omega

theorem selectPositions_lt (len t : ℕ) (h1 : 1 ≤ t) (h2 : t ≤ len) :
    ∀ p ∈ selectPositions len t, p < len := by
  intro p hp
  simp only [selectPositions] at hp
  have hp2 := (List.take_sublist _ _).subset hp
  rw [List.mem_map] at hp2
  obtain ⟨k, hk, rfl⟩ := hp2
  rw [List.mem_range] at hk
  obtain ⟨s, hs⟩ : ∃ s, max 1 (len / t) = s := ⟨_, rfl⟩
  rw [hs] at hk ⊢
  have hs1 : 1 ≤ s := by rw [← hs]; exact le_max_left _ _
  have hk2 : (k + 1) * s ≤ len + s - 1 := by
    rw [← Nat.le_div_iff_mul_le (by omega)]
    omega
  obtain ⟨A, hA⟩ : ∃ A, k * s = A := ⟨_, rfl⟩
  have hk3 : (k + 1) * s = A + s := by rw [← hA]; ring
  rw [hk3] at hk2
  rw [hA]
  omega

theorem selectPositions_nodup (len t : ℕ) :
    (selectPositions len t).Nodup := by
  simp only [selectPositions]
  apply (List.take_sublist _ _).nodup
  apply List.Nodup.map_on ?_ (List.nodup_range _)
  intro x _ y _ hxy
  have hs1 : 1 ≤ max 1 (len / t) := le_max_left _ _
  exact Nat.eq_of_mul_eq_mul_right (by omega) hxy

theorem selectedIdxForCat_length (bins : List BinLocation) (c t : ℕ)
    (h1 : 1 ≤ t) (h2 : t ≤ catCount bins c) :
    (selectedIdxForCat bins c t).length = t := by
  unfold selectedIdxForCat
  rw [List.length_map]
  exact selectPositions_length _ _ h1 (by rw [catIdxSorted_length]; exact h2)

theorem mem_selectedIdxForCat (bins : List BinLocation) (c t : ℕ)
    (h1 : 1 ≤ t) (h2 : t ≤ catCount bins c) :
    ∀ i ∈ selectedIdxForCat bins c t,
      i ∈ assignedIdx bins ∧ (bins.getD i default).footfall_category = c := by
  intro i hi
  unfold selectedIdxForCat at hi
  rw [List.mem_map] at hi
  obtain ⟨p, hp, rfl⟩ := hi
  have hlen := catIdxSorted_length bins c
  have hplt : p < (catIdxSorted bins c).length :=
    selectPositions_lt _ t h1 (by omega) p hp
  exact (mem_catIdxSorted bins c _).mp (getD_mem_of_lt _ p hplt 0)

theorem selectedIdxForCat_nodup (bins : List BinLocation) (c t : ℕ)
    (h1 : 1 ≤ t) (h2 : t ≤ catCount bins c) :
    (selectedIdxForCat bins c t).Nodup := by
  unfold selectedIdxForCat
  apply List.Nodup.map_on ?_ (selectPositions_nodup _ _)
  intro x hx y hy hxy
  have hlen := catIdxSorted_length bins c
  have hxlt : x < (catIdxSorted bins c).length :=
    selectPositions_lt _ t h1 (by omega) x hx
  have hylt : y < (catIdxSorted bins c).length :=
    selectPositions_lt _ t h1 (by omega) y hy
  rw [List.getD_eq_getElem?_getD, List.getElem?_eq_getElem hxlt, Option.getD_some,
    List.getD_eq_getElem?_getD, List.getElem?_eq_getElem hylt, Option.getD_some] at hxy
  exact ((catIdxSorted_nodup bins c).getElem_inj_iff).mp hxy

/-- The pre-reconciliation target sum never exceeds the assigned count. -/
theorem initialTargetSum_le (bins : List BinLocation) (n : ℕ) :
    initialTargetSum bins n ≤ (assignedIdx bins).length := by
  rw [← sum_catCount]
  apply List.sum_le_sum
  intro c hc
  exact (initialTarget_bounds bins n c hc).2

/-- The optimizer's selected-position list (general path): its length is
`max initialTargetSum n_sensors`, it has no duplicates, and every entry
is an assigned position. -/
theorem selIdx_spec (bins : List BinLocation) (n : ℕ)
    (hn : n ≤ (assignedIdx bins).length) :
    ((binCategories bins).flatMap
        (fun c => selectedIdxForCat bins c ((finalState bins n).1 c))).length =
      max (initialTargetSum bins n) n ∧
    ((binCategories bins).flatMap
        (fun c => selectedIdxForCat bins c ((finalState bins n).1 c))).Nodup ∧
    ∀ i ∈ (binCategories bins).flatMap
        (fun c => selectedIdxForCat bins c ((finalState bins n).1 c)),
      i ∈ assignedIdx bins := by
  rcases finalState_spec bins n hn with ⟨h1, h2, h3⟩
  refine ⟨?_, ?_, ?_⟩
  · have hmap : (binCategories bins).map
        (List.length ∘ fun c => selectedIdxForCat bins c ((finalState bins n).1 c)) =
        (binCategories bins).map (finalState bins n).1 := by
      apply List.map_congr_left
      intro c hc
      rcases h2 c hc with ⟨hle, hone⟩
      exact selectedIdxForCat_length bins c _ hone hle
    rw [List.length_flatMap, hmap, ← h3, h1]
  · rw [List.nodup_flatMap]
    constructor
    · intro c hc
      rcases h2 c hc with ⟨hle, hone⟩
      exact selectedIdxForCat_nodup bins c _ hone hle
    · apply List.Pairwise.imp_of_mem ?_ (binCategories_nodup bins)
      intro a b ha hb hab
      intro i hia hib
      rcases h2 a ha with ⟨hlea, honea⟩
      rcases h2 b hb with ⟨hleb, honeb⟩
      have hca := (mem_selectedIdxForCat bins a _ honea hlea i hia).2
      have hcb := (mem_selectedIdxForCat bins b _ honeb hleb i hib).2
      exact hab (hca ▸ hcb ▸ rfl)
  · intro i hi
    rw [List.mem_flatMap] at hi
    obtain ⟨c, hc, hic⟩ := hi
    rcases h2 c hc with ⟨hle, hone⟩
    exact (mem_selectedIdxForCat bins c _ hone hle i hic).1

/-- C1 (amended): when at least `n_sensors` bins are assigned,
`optimize_sensor_placement` selects exactly
`max initialTargetSum n_sensors` distinct assigned bins — never fewer
than `n_sensors`, but strictly more whenever the per-category floor
`min(20, count)` already pushes the pre-reconciliation target sum past
`n_sensors` (the reconciliation loop only ever increments targets); the
reconciled targets sum to that same value and each stays within its
category's available count. -/
theorem optimize_count (bins : List BinLocation) (n k : ℕ)
    (hn : n ≤ (assignedIdx bins).length) :
    (optimize_sensor_placement bins n k).2.length =
        max (initialTargetSum bins n) n ∧
      n ≤ (optimize_sensor_placement bins n k).2.length ∧
      (optimize_sensor_placement bins n k).2.Nodup ∧
      (∀ i ∈ (optimize_sensor_placement bins n k).2, i ∈ assignedIdx bins) ∧
      (finalState bins n).2 = max (initialTargetSum bins n) n ∧
      ∀ c ∈ binCategories bins, (finalState bins n).1 c ≤ catCount bins c := by
  have hnot : ¬ ((assignedIdx bins).length < n) := by omega
  have hopt : (optimize_sensor_placement bins n k).2 =
      (binCategories bins).flatMap
        (fun c => selectedIdxForCat bins c ((finalState bins n).1 c)) := by
    unfold optimize_sensor_placement
    rw [if_neg hnot]
  rcases selIdx_spec bins n hn with ⟨h1, h2, h3⟩
  rcases finalState_spec bins n hn with ⟨hf1, hf2, _⟩
  rw [hopt]
  exact ⟨h1, by rw [h1]; exact le_max_right _ _, h2, h3, hf1,
    fun c hc => (hf2 c hc).1⟩

/-- Witness for `optimize_count`: a single assigned bin with
`n_sensors = 1`. -/
theorem optimize_count_witness :
    1 ≤ (assignedIdx [wBin]).length ∧
      ((optimize_sensor_placement [wBin] 1 8).2.length =
          max (initialTargetSum [wBin] 1) 1 ∧
        1 ≤ (optimize_sensor_placement [wBin] 1 8).2.length ∧
        (optimize_sensor_placement [wBin] 1 8).2.Nodup ∧
        (∀ i ∈ (optimize_sensor_placement [wBin] 1 8).2, i ∈ assignedIdx [wBin]) ∧
        (finalState [wBin] 1).2 = max (initialTargetSum [wBin] 1) 1 ∧
        ∀ c ∈ binCategories [wBin],
          (finalState [wBin] 1).1 c ≤ catCount [wBin] c) :=
  ⟨by decide, optimize_count [wBin] 1 8 (by decide)⟩

/-- C1 (counterexample): two assigned bins in two categories with
`n_sensors = 1`.  The assigned count (2) is at least `n_sensors`, yet the
optimizer selects 2 bins and marks both `selected_for_sensor` — the
floor `min(20, count)` forces each category's target to 1 and the
increment-only reconciliation cannot bring the total back down to 1, so
neither the at-most-`n_sensors` bound nor the exact-`n_sensors` count
holds, and the target sum (2) differs from `n_sensors` (1). -/
theorem optimize_count_cex :
    1 ≤ (assignedIdx cexBins).length ∧
      (optimize_sensor_placement cexBins 1 8).2.length = 2 ∧
      (optimize_sensor_placement cexBins 1 8).1.countP
        (fun b => b.selected_for_sensor) = 2 := by
  have hts : totalSqrt cexBins = 2 := by
    have h01 : binCategories cexBins = [0, 1] := rfl
    have hc0 : catCount cexBins 0 = 1 := rfl
    have hc1 : catCount cexBins 1 = 1 := rfl
    unfold totalSqrt
    rw [h01]
    simp only [List.map_cons, List.map_nil, List.sum_cons, List.sum_nil,
      hc0, hc1, Nat.cast_one, Real.sqrt_one]
    norm_num
  have hfl : ⌊(1 : ℝ) / 2⌋ = 0 := by
    rw [Int.floor_eq_zero_iff, Set.mem_Ico]
    norm_num
  have hit0 : initialTarget cexBins 1 0 = 1 := by
    have hc : catCount cexBins 0 = 1 := rfl
    simp only [initialTarget]
    rw [hc, hts, Nat.cast_one, Real.sqrt_one, one_mul, hfl]
    rfl
  have hit1 : initialTarget cexBins 1 1 = 1 := by
    have hc : catCount cexBins 1 = 1 := rfl
    simp only [initialTarget]
    rw [hc, hts, Nat.cast_one, Real.sqrt_one, one_mul, hfl]
    rfl
  have hsum : initialTargetSum cexBins 1 = 2 := by
    have h01 : binCategories cexBins = [0, 1] := rfl
    unfold initialTargetSum
    rw [h01]
    simp only [List.map_cons, List.map_nil, List.sum_cons, List.sum_nil,
      hit0, hit1]
    rfl
  have hfs : finalState cexBins 1 = (initialTarget cexBins 1, 2) := by
    unfold finalState
    rw [hsum]
    rfl
  have hT0 : (finalState cexBins 1).1 0 = 1 := by rw [hfs]; exact hit0
  have hT1 : (finalState cexBins 1).1 1 = 1 := by rw [hfs]; exact hit1
  have hsel : (binCategories cexBins).flatMap
      (fun c => selectedIdxForCat cexBins c ((finalState cexBins 1).1 c)) =
      [0, 1] := by
    rw [show binCategories cexBins = [0, 1] from rfl, List.flatMap_cons,
      List.flatMap_cons, List.flatMap_nil, hT0, hT1]
    rfl
  have hnot : ¬ ((assignedIdx cexBins).length < 1) := by decide
  have hopt2 : (optimize_sensor_placement cexBins 1 8).2 = [0, 1] := by
    unfold optimize_sensor_placement
    rw [if_neg hnot]
    exact hsel
  have hopt1 : (optimize_sensor_placement cexBins 1 8).1 =
      applySel cexBins [0, 1] 1 := by
    unfold optimize_sensor_placement
    rw [if_neg hnot]
    show applySel cexBins ((binCategories cexBins).flatMap
      (fun c => selectedIdxForCat cexBins c ((finalState cexBins 1).1 c))) 1 =
      applySel cexBins [0, 1] 1
    rw [hsel]
  refine ⟨by decide, by rw [hopt2]; rfl, by rw [hopt1]; rfl⟩

/-- C6: when at most `n_sensors` bins are assigned (the soft
InsufficientCandidates condition), `optimize_sensor_placement` completes
normally and selects every assigned bin exactly once: the returned
selection list is a permutation of the assigned positions, and the bin
at the `p`-th selected position is marked `selected_for_sensor` with
selection rank `p + 1` (ranks 1 through the assigned count). -/
theorem optimize_select_all (bins : List BinLocation) (n k : ℕ)
    (hn : (assignedIdx bins).length ≤ n) :
    List.Perm (optimize_sensor_placement bins n k).2 (assignedIdx bins) ∧
    ∀ p, p < (optimize_sensor_placement bins n k).2.length →
      (optimize_sensor_placement bins n k).1.getD
          ((optimize_sensor_placement bins n k).2.getD p 0) default =
        { bins.getD ((optimize_sensor_placement bins n k).2.getD p 0)
            default with
          selected_for_sensor := true, selection_rank := p + 1 } := by
  have key : ∃ idxs, optimize_sensor_placement bins n k =
      (applySel bins idxs 1, idxs) ∧
      List.Perm idxs (assignedIdx bins) := by
    by_cases hlt : (assignedIdx bins).length < n
    · refine ⟨assignedIdx bins, ?_, List.Perm.refl _⟩
      unfold optimize_sensor_placement
      rw [if_pos hlt]
    · have hge : n ≤ (assignedIdx bins).length := by omega
      rcases selIdx_spec bins n hge with ⟨hlen, hnd, hsub⟩
      have hits := initialTargetSum_le bins n
      refine ⟨(binCategories bins).flatMap
        (fun c => selectedIdxForCat bins c ((finalState bins n).1 c)),
        ?_, ?_⟩
      · unfold optimize_sensor_placement
        rw [if_neg hlt]
      · exact (hnd.subperm hsub).perm_of_length_le (by rw [hlen]; omega)
  obtain ⟨idxs, hopt, hperm⟩ := key
  have hnd2 : idxs.Nodup := hperm.nodup_iff.mpr (assignedIdx_nodup bins)
  have hlt2 : ∀ i ∈ idxs, i < bins.length := fun i hi =>
    assignedIdx_lt bins i (hperm.mem_iff.mp hi)
  rw [hopt]
  refine ⟨hperm, fun p hp => ?_⟩
  have h := applySel_getD_sel bins idxs 1 hnd2 hlt2 p hp
  have hc : 1 + p = p + 1 := Nat.add_comm 1 p
  rw [h, hc]

/-- Witness for `optimize_select_all`: one assigned bin,
`n_sensors = 5`. -/
theorem optimize_select_all_witness :
    (assignedIdx [wBin]).length ≤ 5 ∧
      (List.Perm (optimize_sensor_placement [wBin] 5 8).2
          (assignedIdx [wBin]) ∧
        ∀ p, p < (optimize_sensor_placement [wBin] 5 8).2.length →
          (optimize_sensor_placement [wBin] 5 8).1.getD
              ((optimize_sensor_placement [wBin] 5 8).2.getD p 0) default =
            { [wBin].getD
                ((optimize_sensor_placement [wBin] 5 8).2.getD p 0)
                default with
              selected_for_sensor := true, selection_rank := p + 1 }) :=
  ⟨by decide, optimize_select_all [wBin] 5 8 (by decide)⟩

/-- The nearest-cell fold, started from a candidate entry, returns a
minimal entry. -/
theorem nearestScan_fold (b : BinLocation) :
    ∀ (cells : List GridCell) (c0 : GridCell) (m0 : ℝ),
      ∃ c m, cells.foldl (nearestStep b) (some (c0, m0)) = some (c, m) ∧
        ((c = c0 ∧ m = m0) ∨ (c ∈ cells ∧
          m = Point.distance_to ⟨b.lat, b.lon⟩
            ⟨c.center_lat, c.center_lon⟩)) ∧
        m ≤ m0 ∧
        ∀ c' ∈ cells, m ≤ Point.distance_to ⟨b.lat, b.lon⟩
          ⟨c'.center_lat, c'.center_lon⟩ := by
  intro cells
  induction cells with
  | nil =>
    intro c0 m0
    refine ⟨c0, m0, rfl, Or.inl ⟨rfl, rfl⟩, le_refl _, ?_⟩
    intro c' hc'
    simp at hc'
  | cons cell rest ih =>
    intro c0 m0
    by_cases hlt : Point.distance_to ⟨b.lat, b.lon⟩
        ⟨cell.center_lat, cell.center_lon⟩ < m0
    · have hstep : nearestStep b (some (c0, m0)) cell =
          some (cell, Point.distance_to ⟨b.lat, b.lon⟩
            ⟨cell.center_lat, cell.center_lon⟩) := by
        simp [nearestStep, hlt]
      obtain ⟨c, m, h1, h2, h3, h4⟩ := ih cell
        (Point.distance_to ⟨b.lat, b.lon⟩ ⟨cell.center_lat, cell.center_lon⟩)
      refine ⟨c, m, ?_, ?_, le_trans h3 (le_of_lt hlt), ?_⟩
      · rw [List.foldl_cons, hstep]
        exact h1
      · rcases h2 with ⟨hc, hm⟩ | ⟨hc, hm⟩
        · refine Or.inr ⟨by rw [hc]; exact List.mem_cons_self cell rest, ?_⟩
          rw [hc]
          exact hm
        · exact Or.inr ⟨List.mem_cons_of_mem cell hc, hm⟩
      · intro c' hc'
        rcases List.mem_cons.mp hc' with h | h
        · rw [h]
          exact h3
        · exact h4 c' h
    · have hstep : nearestStep b (some (c0, m0)) cell = some (c0, m0) := by
        simp [nearestStep, hlt]
      obtain ⟨c, m, h1, h2, h3, h4⟩ := ih c0 m0
      refine ⟨c, m, ?_, ?_, h3, ?_⟩
      · rw [List.foldl_cons, hstep]
        exact h1
      · rcases h2 with h | ⟨hc, hm⟩
        · exact Or.inl h
        · exact Or.inr ⟨List.mem_cons_of_mem cell hc, hm⟩
      · intro c' hc'
        rcases List.mem_cons.mp hc' with h | h
        · rw [h]
          exact le_trans h3 (le_of_not_lt hlt)
        · exact h4 c' h

/-- The scan finds no cell exactly when there is no cell. -/
theorem nearestScan_none (b : BinLocation) (cells : List GridCell) :
    nearestScan b cells = none ↔ cells = [] := by
  constructor
  · intro h
    cases cells with
    | nil => rfl
    | cons cell rest =>
      exfalso
      obtain ⟨c, m, h1, _⟩ := nearestScan_fold b rest cell
        (Point.distance_to ⟨b.lat, b.lon⟩ ⟨cell.center_lat, cell.center_lon⟩)
      unfold nearestScan at h
      rw [List.foldl_cons] at h
      have hstep : nearestStep b none cell = some (cell,
          Point.distance_to ⟨b.lat, b.lon⟩
            ⟨cell.center_lat, cell.center_lon⟩) := rfl
      rw [hstep, h1] at h
      exact Option.noConfusion h
  · intro h
    rw [h]
    rfl

/-- What the scan returns is a cell of the list, paired with its raw
lat/lon distance to the bin, and that distance is minimal over all
cells (ties keep the earliest cell). -/
theorem nearestScan_spec (b : BinLocation) (cells : List GridCell)
    (c : GridCell) (m : ℝ) (h : nearestScan b cells = some (c, m)) :
    c ∈ cells ∧
    m = Point.distance_to ⟨b.lat, b.lon⟩ ⟨c.center_lat, c.center_lon⟩ ∧
    ∀ c' ∈ cells, m ≤ Point.distance_to ⟨b.lat, b.lon⟩
      ⟨c'.center_lat, c'.center_lon⟩ := by
  cases cells with
  | nil => exact Option.noConfusion h
  | cons cell rest =>
    obtain ⟨c2, m2, h1, h2, h3, h4⟩ := nearestScan_fold b rest cell
      (Point.distance_to ⟨b.lat, b.lon⟩ ⟨cell.center_lat, cell.center_lon⟩)
    unfold nearestScan at h
    rw [List.foldl_cons] at h
    have hstep : nearestStep b none cell = some (cell,
        Point.distance_to ⟨b.lat, b.lon⟩
          ⟨cell.center_lat, cell.center_lon⟩) := rfl
    rw [hstep, h1] at h
    have h5 := Option.some.inj h
    have hc : c2 = c := congrArg Prod.fst h5
    have hm : m2 = m := congrArg Prod.snd h5
    rw [hc, hm] at h2
    rw [hm] at h3 h4
    refine ⟨?_, ?_, ?_⟩
    · rcases h2 with ⟨hcc, _⟩ | ⟨hcc, _⟩
      · rw [hcc]
        exact List.mem_cons_self cell rest
      · exact List.mem_cons_of_mem cell hcc
    · rcases h2 with ⟨hcc, hmm⟩ | ⟨_, hmm⟩
      · rw [hmm, hcc]
      · exact hmm
    · intro c' hc'
      rcases List.mem_cons.mp hc' with hh | hh
      · rw [hh]
        exact h3
      · exact h4 c' hh

/-- One bin of the assignment loop: linked iff a nearest cell exists
strictly within twice the grid resolution, in which case the seven
listed fields are copied from it; otherwise the bin is returned
untouched.  The boolean is the contribution to the `assigned` counter. -/
theorem assignBin_spec (b : BinLocation) (cells : List GridCell)
    (config : Config) (hb : b.cell_id = "")
    (hcells : ∀ c ∈ cells, c.cell_id ≠ "") :
    (((assignBin b cells config).1.cell_id ≠ "") ↔
      (∃ c m, nearestScan b cells = some (c, m) ∧
        m < (config.GRID_RESOLUTION : ℝ) * 2)) ∧
    (((assignBin b cells config).1.cell_id ≠ "") ↔
      (assignBin b cells config).2 = true) ∧
    (∀ c m, nearestScan b cells = some (c, m) →
      (m < (config.GRID_RESOLUTION : ℝ) * 2 →
        (assignBin b cells config).1 = { b with
          cell_id := c.cell_id,
          footfall_category := c.footfall_category,
          footfall_score := c.footfall_score,
          ward := c.ward,
          road_name := c.road_name,
          estimated_people_per_hour := c.estimated_people_per_hour,
          estimated_bin_fill_rate := c.estimated_bin_fill_rate }) ∧
      (¬ m < (config.GRID_RESOLUTION : ℝ) * 2 →
        (assignBin b cells config).1 = b)) ∧
    ((assignBin b cells config).1.cell_id = "" →
      (assignBin b cells config).1 = b) := by
  rcases hscan : nearestScan b cells with _ | ⟨c0, m0⟩
  · have ha : assignBin b cells config = (b, false) := by
      unfold assignBin
      rw [hscan]
    rw [ha]
    refine ⟨?_, ?_, ?_, fun _ => rfl⟩
    · simp only [hb]
      constructor
      · intro h
        exact absurd rfl h
      · rintro ⟨c, m, hcm, _⟩
        exact Option.noConfusion hcm
    · simp [hb]
    · intro c m hcm
      exact Option.noConfusion hcm
  · by_cases hm0 : m0 < (config.GRID_RESOLUTION : ℝ) * 2
    · have ha : assignBin b cells config = ({ b with
          cell_id := c0.cell_id,
          footfall_category := c0.footfall_category,
          footfall_score := c0.footfall_score,
          ward := c0.ward,
          road_name := c0.road_name,
          estimated_people_per_hour := c0.estimated_people_per_hour,
          estimated_bin_fill_rate := c0.estimated_bin_fill_rate }, true) := by
        unfold assignBin
        rw [hscan]
        exact if_pos hm0
      have hc0 : c0.cell_id ≠ "" :=
        hcells c0 (nearestScan_spec b cells c0 m0 hscan).1
      rw [ha]
      refine ⟨?_, ?_, ?_, ?_⟩
      · constructor
        · intro _
          exact ⟨c0, m0, rfl, hm0⟩
        · intro _
          exact hc0
      · constructor
        · intro _
          rfl
        · intro _
          exact hc0
      · intro c m hcm
        have h5 := Option.some.inj hcm
        have hcc : c0 = c := congrArg Prod.fst h5
        have hmm : m0 = m := congrArg Prod.snd h5
        rw [← hcc, ← hmm]
        exact ⟨fun _ => rfl, fun hn => absurd hm0 hn⟩
      · intro hcid
        exact absurd hcid hc0
    · have ha : assignBin b cells config = (b, false) := by
        unfold assignBin
        rw [hscan]
        exact if_neg hm0
      rw [ha]
      refine ⟨?_, ?_, ?_, fun _ => rfl⟩
      · simp only [hb]
        constructor
        · intro h
          exact absurd rfl h
        · rintro ⟨c, m, hcm, hmlt⟩
          have h5 := Option.some.inj hcm
          have hmm : m0 = m := congrArg Prod.snd h5
          rw [← hmm] at hmlt
          exact absurd hmlt hm0
      · simp [hb]
      · intro c m hcm
        have h5 := Option.some.inj hcm
        have hmm : m0 = m := congrArg Prod.snd h5
        rw [← hmm]
        exact ⟨fun hlt => absurd hlt hm0, fun _ => rfl⟩

/-- A position whose bin has an empty `cell_id` is never touched by the
optimizer. -/
theorem optimize_untouched (bins : List BinLocation) (n k j : ℕ)
    (hj : (bins.getD j default).cell_id = "") :
    (optimize_sensor_placement bins n k).1.getD j default =
      bins.getD j default := by
  have hj2 : j ∉ assignedIdx bins := fun hmem => assignedIdx_cell bins j hmem hj
  by_cases hlt : (assignedIdx bins).length < n
  · have h : (optimize_sensor_placement bins n k).1 =
        applySel bins (assignedIdx bins) 1 := by
      unfold optimize_sensor_placement
      rw [if_pos hlt]
    rw [h]
    exact applySel_frame bins _ 1 j hj2
  · have hge : n ≤ (assignedIdx bins).length := by omega
    rcases selIdx_spec bins n hge with ⟨_, _, hsub⟩
    have h : (optimize_sensor_placement bins n k).1 =
        applySel bins ((binCategories bins).flatMap
          (fun c => selectedIdxForCat bins c ((finalState bins n).1 c))) 1 := by
      unfold optimize_sensor_placement
      rw [if_neg hlt]
    rw [h]
    exact applySel_frame bins _ 1 j (fun hmem => hj2 (hsub j hmem))

/-- C5: after `assign_bins_to_cells` on fresh bins (empty `cell_id`,
unselected, rank 0) over cells with nonempty ids, the bin list keeps its
length; a bin ends with a nonempty `cell_id` exactly when its nearest
cell (minimal raw lat/lon distance over all cells, earliest cell on
ties) lies strictly within `2 * GRID_RESOLUTION`, in which case the
cell's id, category, score and derived fields are copied onto the bin; a
bin with no cell inside the threshold is returned untouched; the
reported assigned count equals the number of bins with a nonempty
`cell_id`, so the dropped count is observable; and an unlinked bin is
excluded from sensor placement: `optimize_sensor_placement` leaves it
unchanged, unselected and with rank 0. -/
theorem assign_bins_spec (bins : List BinLocation) (cells : List GridCell)
    (config : Config)
    (hcells : ∀ c ∈ cells, c.cell_id ≠ "")
    (hfresh : ∀ b ∈ bins, b.cell_id = "" ∧ b.selected_for_sensor = false ∧
      b.selection_rank = 0) :
    (assign_bins_to_cells bins cells config).1.length = bins.length ∧
    (∀ j, j < bins.length →
      ((((assign_bins_to_cells bins cells config).1.getD j
          default).cell_id ≠ "") ↔
        ∃ c m, nearestScan (bins.getD j default) cells = some (c, m) ∧
          m < (config.GRID_RESOLUTION : ℝ) * 2)) ∧
    (∀ j, j < bins.length → ∀ c m,
      nearestScan (bins.getD j default) cells = some (c, m) →
        c ∈ cells ∧
        m = Point.distance_to
          ⟨(bins.getD j default).lat, (bins.getD j default).lon⟩
          ⟨c.center_lat, c.center_lon⟩ ∧
        (∀ c' ∈ cells, m ≤ Point.distance_to
          ⟨(bins.getD j default).lat, (bins.getD j default).lon⟩
          ⟨c'.center_lat, c'.center_lon⟩) ∧
        (m < (config.GRID_RESOLUTION : ℝ) * 2 →
          (assign_bins_to_cells bins cells config).1.getD j default =
            { bins.getD j default with
              cell_id := c.cell_id,
              footfall_category := c.footfall_category,
              footfall_score := c.footfall_score,
              ward := c.ward,
              road_name := c.road_name,
              estimated_people_per_hour := c.estimated_people_per_hour,
              estimated_bin_fill_rate := c.estimated_bin_fill_rate }) ∧
        (¬ m < (config.GRID_RESOLUTION : ℝ) * 2 →
          (assign_bins_to_cells bins cells config).1.getD j default =
            bins.getD j default)) ∧
    ((assign_bins_to_cells bins cells config).2 =
      (assign_bins_to_cells bins cells config).1.countP
        (fun b => b.cell_id != "")) ∧
    (∀ n k j, j < bins.length →
      (((assign_bins_to_cells bins cells config).1.getD j
          default).cell_id = "") →
      (optimize_sensor_placement
          ((assign_bins_to_cells bins cells config).1) n k).1.getD j
          default = bins.getD j default ∧
      ((optimize_sensor_placement
          ((assign_bins_to_cells bins cells config).1) n k).1.getD j
          default).selected_for_sensor = false ∧
      ((optimize_sensor_placement
          ((assign_bins_to_cells bins cells config).1) n k).1.getD j
          default).selection_rank = 0) := by
  have hlen : (assign_bins_to_cells bins cells config).1.length =
      bins.length := by
    unfold assign_bins_to_cells
    exact List.length_map _ _
  have hmem : ∀ j, j < bins.length → bins.getD j default ∈ bins :=
    fun j hj => getD_mem_of_lt bins j hj default
  have hout : ∀ j, j < bins.length →
      (assign_bins_to_cells bins cells config).1.getD j default =
        (assignBin (bins.getD j default) cells config).1 := by
    intro j hj
    unfold assign_bins_to_cells
    exact getD_map _ bins j hj default default
  refine ⟨hlen, ?_, ?_, ?_, ?_⟩
  · intro j hj
    rw [hout j hj]
    exact (assignBin_spec _ cells config (hfresh _ (hmem j hj)).1 hcells).1
  · intro j hj c m hscan
    obtain ⟨hc1, hc2, hc3⟩ := nearestScan_spec _ cells c m hscan
    refine ⟨hc1, hc2, hc3, ?_, ?_⟩
    · intro hmlt
      rw [hout j hj]
      exact ((assignBin_spec _ cells config (hfresh _ (hmem j hj)).1
        hcells).2.2.1 c m hscan).1 hmlt
    · intro hmlt
      rw [hout j hj]
      exact ((assignBin_spec _ cells config (hfresh _ (hmem j hj)).1
        hcells).2.2.1 c m hscan).2 hmlt
  · unfold assign_bins_to_cells
    rw [List.countP_map]
    apply List.countP_congr
    intro b hb
    have hiff := (assignBin_spec b cells config (hfresh b hb).1 hcells).2.1
    constructor
    · intro h2
      simpa using hiff.mpr h2
    · intro h1
      exact hiff.mp (by simpa using h1)
  · intro n k j hj hempty
    have huntouched := optimize_untouched
      ((assign_bins_to_cells bins cells config).1) n k j hempty
    have hin : (assign_bins_to_cells bins cells config).1.getD j default =
        bins.getD j default := by
      rw [hout j hj]
      refine (assignBin_spec _ cells config (hfresh _ (hmem j hj)).1
        hcells).2.2.2 ?_
      rw [← hout j hj]
      exact hempty
    rcases hfresh _ (hmem j hj) with ⟨_, hsel, hrank⟩
    refine ⟨by rw [huntouched, hin], ?_, ?_⟩
    · rw [huntouched, hin]
      exact hsel
    · rw [huntouched, hin]
      exact hrank

/-- Witness for `assign_bins_spec`: one cell and one fresh bin at the
same location. -/
theorem assign_bins_spec_witness :
    ((∀ c ∈ [wCell], c.cell_id ≠ "") ∧
      ∀ b ∈ [freshBin], b.cell_id = "" ∧ b.selected_for_sensor = false ∧
        b.selection_rank = 0) ∧
    ((assign_bins_to_cells [freshBin] [wCell] {}).1.length =
        [freshBin].length ∧
      (∀ j, j < [freshBin].length →
        ((((assign_bins_to_cells [freshBin] [wCell] {}).1.getD j
            default).cell_id ≠ "") ↔
          ∃ c m, nearestScan ([freshBin].getD j default) [wCell] =
              some (c, m) ∧
            m < (({} : Config).GRID_RESOLUTION : ℝ) * 2)) ∧
      (∀ j, j < [freshBin].length → ∀ c m,
        nearestScan ([freshBin].getD j default) [wCell] = some (c, m) →
          c ∈ [wCell] ∧
          m = Point.distance_to
            ⟨([freshBin].getD j default).lat,
              ([freshBin].getD j default).lon⟩
            ⟨c.center_lat, c.center_lon⟩ ∧
          (∀ c' ∈ [wCell], m ≤ Point.distance_to
            ⟨([freshBin].getD j default).lat,
              ([freshBin].getD j default).lon⟩
            ⟨c'.center_lat, c'.center_lon⟩) ∧
          (m < (({} : Config).GRID_RESOLUTION : ℝ) * 2 →
            (assign_bins_to_cells [freshBin] [wCell] {}).1.getD j default =
              { [freshBin].getD j default with
                cell_id := c.cell_id,
                footfall_category := c.footfall_category,
                footfall_score := c.footfall_score,
                ward := c.ward,
                road_name := c.road_name,
                estimated_people_per_hour := c.estimated_people_per_hour,
                estimated_bin_fill_rate := c.estimated_bin_fill_rate }) ∧
          (¬ m < (({} : Config).GRID_RESOLUTION : ℝ) * 2 →
            (assign_bins_to_cells [freshBin] [wCell] {}).1.getD j default =
              [freshBin].getD j default)) ∧
      ((assign_bins_to_cells [freshBin] [wCell] {}).2 =
        (assign_bins_to_cells [freshBin] [wCell] {}).1.countP
          (fun b => b.cell_id != "")) ∧
      (∀ n k j, j < [freshBin].length →
        (((assign_bins_to_cells [freshBin] [wCell] {}).1.getD j
            default).cell_id = "") →
        (optimize_sensor_placement
            ((assign_bins_to_cells [freshBin] [wCell] {}).1) n k).1.getD j
            default = [freshBin].getD j default ∧
        ((optimize_sensor_placement
            ((assign_bins_to_cells [freshBin] [wCell] {}).1) n k).1.getD j
            default).selected_for_sensor = false ∧
        ((optimize_sensor_placement
            ((assign_bins_to_cells [freshBin] [wCell] {}).1) n k).1.getD j
            default).selection_rank = 0)) :=
  ⟨⟨by decide, by decide⟩,
    assign_bins_spec [freshBin] [wCell] {} (by decide) (by decide)⟩

/-- C9 (counterexample): a prior successful run published one bin; a
re-run loads fresh (empty) data, publishes it, and then fails while
saving the grid CSV.  The run ends in the terminal `"error"` status, yet
the published bin list readable by observers is now the new run's empty
list — the previously-published result was overwritten by the failed
run. -/
theorem run_full_analysis_cex :
    cexInitState.status = "complete" ∧
      cexInitState.bins = some [cexBinA] ∧
      (run_full_analysis cexInitState cexExt).status = "error" ∧
      (run_full_analysis cexInitState cexExt).bins = some [] ∧
      (run_full_analysis cexInitState cexExt).bins ≠ cexInitState.bins := by
  refine ⟨rfl, rfl, rfl, rfl, ?_⟩
  intro h
  have h2 : (some ([] : List BinLocation)) = some [cexBinA] := h
  have h3 := Option.some.inj h2
  exact List.noConfusion h3

/-- C9 (amended): a hard error at any I/O stage aborts the run with the
terminal `"error"` status and a human-readable `"Error: ..."` message
(otherwise the run completes with status `"complete"`); but
previously-published results are not protected: state is published to
observers stage by stage before the output files are saved, so when
every stage up to and including the bin load succeeds and saving the
grid CSV then fails, the observer-visible `cells` and `bins` are already
the failed run's freshly computed values. -/
theorem run_full_analysis_spec (st0 : ServerState) (ext : ExternalStages) :
    ((run_full_analysis st0 ext).status = "complete" ∨
      ((run_full_analysis st0 ext).status = "error" ∧
        ∃ e, (run_full_analysis st0 ext).message = "Error: " ++ e)) ∧
    ∀ tubes buses premises bins0 e,
      ext.load_tube_stations = Except.ok tubes →
      ext.load_bus_stops = Except.ok buses →
      ext.load_licensed_premises = Except.ok premises →
      ext.mkdir_data = Except.ok () →
      ext.generate_sample_bins = Except.ok () →
      ext.load_bins_from_csv = Except.ok bins0 →
      ext.mkdir_output = Except.ok () →
      ext.save_grid_csv = Except.error e →
      (run_full_analysis st0 ext).status = "error" ∧
      (run_full_analysis st0 ext).message = "Error: " ++ e ∧
      (run_full_analysis st0 ext).cells = some (categorize_cells
        (calculate_footfall_scores (create_grid st0.config) tubes buses
          premises st0.config) st0.config) ∧
      (run_full_analysis st0 ext).bins = some ((optimize_sensor_placement
        ((assign_bins_to_cells bins0 (categorize_cells
          (calculate_footfall_scores (create_grid st0.config) tubes buses
            premises st0.config) st0.config) st0.config).1) 1000
        st0.config.N_FOOTFALL_CATEGORIES).1) := by
  constructor
  · obtain ⟨f1, f2, f3, f4, f5, f6, f7, f8, f9, f10⟩ := ext
    rcases f1 with e | tubes
    · exact Or.inr ⟨rfl, e, rfl⟩
    rcases f2 with e | buses
    · exact Or.inr ⟨rfl, e, rfl⟩
    rcases f3 with e | premises
    · exact Or.inr ⟨rfl, e, rfl⟩
    rcases f4 with e | u4
    · exact Or.inr ⟨rfl, e, rfl⟩
    rcases f5 with e | u5
    · exact Or.inr ⟨rfl, e, rfl⟩
    rcases f6 with e | bins0
    · exact Or.inr ⟨rfl, e, rfl⟩
    rcases f7 with e | u7
    · exact Or.inr ⟨rfl, e, rfl⟩
    rcases f8 with e | u8
    · exact Or.inr ⟨rfl, e, rfl⟩
    rcases f9 with e | u9
    · exact Or.inr ⟨rfl, e, rfl⟩
    rcases f10 with e | u10
    · exact Or.inr ⟨rfl, e, rfl⟩
    exact Or.inl rfl
  · intro tubes buses premises bins0 e h1 h2 h3 h4 h5 h6 h7 h8
    unfold run_full_analysis
    rw [h1, h2, h3, h4, h5, h6, h7, h8]
    exact ⟨rfl, rfl, rfl, rfl⟩

/-- Witness for `run_full_analysis_spec`: the inner implication applied
to the concrete failing-save oracle. -/
theorem run_full_analysis_spec_witness :
    (run_full_analysis cexInitState cexExt).status = "error" ∧
      (run_full_analysis cexInitState cexExt).message =
        "Error: " ++ "disk full" ∧
      (run_full_analysis cexInitState cexExt).cells = some (categorize_cells
        (calculate_footfall_scores (create_grid cexInitState.config) [] []
          [] cexInitState.config) cexInitState.config) ∧
      (run_full_analysis cexInitState cexExt).bins =
        some ((optimize_sensor_placement
          ((assign_bins_to_cells [] (categorize_cells
            (calculate_footfall_scores (create_grid cexInitState.config)
              [] [] [] cexInitState.config) cexInitState.config)
            cexInitState.config).1) 1000
          cexInitState.config.N_FOOTFALL_CATEGORIES).1) :=
  (run_full_analysis_spec cexInitState cexExt).2 [] [] [] [] "disk full"
    rfl rfl rfl rfl rfl rfl rfl rfl

end BinSensors
